import Mathlib

/-!
# tinkoff-auto-limit-orders: the order file loop of `cmd/main.go`

A shallow embedding of the loop of `main` that reads `orders.txt` line by line,
parses each line into a `Trade` and places one limit order per parsed line.

Go strings are modelled as lists of Unicode characters (`List Char`): the input
file is UTF-8 text and every separator the program looks for (`;`, `.`, signs,
digits) is a one-byte character, so a split on characters is the split on bytes.
`int` is the 64-bit `int` of the targets the SDK runs on (`strconv.IntSize = 64`).
The library routines the loop calls (`strings.Split`, `strconv.Atoi`,
`fmt.Sscanf` with the format `%d`) are embedded from the Go standard library.
-/

deriving instance DecidableEq for Except

namespace TinkoffOrders

/-! ## strings -/

/-- Go `strings.Split(s, sep)` for a one-character separator: the substrings
between the occurrences of `sep`; one more substring than occurrences. -/
def Split (s : List Char) (sep : Char) : List (List Char) :=
  match s with
  | [] => [[]]
  | c :: rest =>
    if c = sep then [] :: Split rest sep
    else
      match Split rest sep with
      | [] => [[c]]
      | h :: t => (c :: h) :: t

/-- Length of a Go string, `len(s)`: its number of bytes in UTF-8. -/
def len (s : List Char) : Nat := (s.map Char.utf8Size).sum

/-! ## strconv -/

/-- The size in bits of `int`, `strconv.IntSize`. -/
def intSize : Nat := 64

/-- The two errors of package strconv. -/
inductive NumError where
  | ErrSyntax
  | ErrRange
deriving DecidableEq, Repr

/-- The largest `uint64`. -/
def maxUint64 : Nat := 2 ^ 64 - 1

/-- The value of a byte as a digit in `strconv.ParseUint`: `c - '0'` for a
decimal digit, `lower(c) - 'a' + 10` for a letter, nothing otherwise. -/
def digitOf (c : Char) : Option Nat :=
  if '0' ≤ c ∧ c ≤ '9' then some (c.toNat - '0'.toNat)
  else if ('a' ≤ c ∧ c ≤ 'z') ∨ ('A' ≤ c ∧ c ≤ 'Z') then
    some (c.toLower.toNat - 'a'.toNat + 10)
  else none

/-- The loop of `strconv.ParseUint(s, base, bitSize)` for `base = 10`, from the
accumulated value `n`; `maxVal = 1<<bitSize - 1`, arithmetic is `uint64`. -/
def parseUintLoop (maxVal : Nat) : List Char → Nat → Except NumError Nat
  | [], n => .ok n
  | c :: cs, n =>
    match digitOf c with
    | none => .error .ErrSyntax
    | some d =>
      if d ≥ 10 then .error .ErrSyntax
      else if n ≥ maxUint64 / 10 + 1 then .error .ErrRange
      else
        let n10 := (n * 10) % 2 ^ 64
        let n1 := (n10 + d) % 2 ^ 64
        if n1 < n10 ∨ n1 > maxVal then .error .ErrRange
        else parseUintLoop maxVal cs n1

/-- Go `strconv.ParseUint(s, 10, bitSize)`. -/
def ParseUint (s : List Char) (bitSize : Nat) : Except NumError Nat :=
  if s = [] then .error .ErrSyntax
  else
    let bitSize := if bitSize = 0 then intSize else bitSize
    parseUintLoop (2 ^ bitSize - 1) s 0

/-- Go `strconv.ParseInt(s, 10, bitSize)`: the sign is picked off, the rest goes
through `ParseUint`; a range error of `ParseUint` comes with the value `maxVal`
and falls through to the range check against `cutoff`. -/
def ParseInt (s : List Char) (bitSize : Nat) : Except NumError Int :=
  match s with
  | [] => .error .ErrSyntax
  | c :: cs =>
    let neg := c = '-'
    let s1 := if c = '+' ∨ c = '-' then cs else s
    match ParseUint s1 bitSize with
    | .error .ErrSyntax => .error .ErrSyntax
    | r =>
      let bitSize := if bitSize = 0 then intSize else bitSize
      let un : Nat := match r with
        | .ok un => un
        | .error _ => 2 ^ bitSize - 1
      let cutoff := 2 ^ (bitSize - 1)
      if ¬ neg ∧ un ≥ cutoff then .error .ErrRange
      else if neg ∧ un > cutoff then .error .ErrRange
      else .ok (if neg then - (un : Int) else (un : Int))

/-- The digit loop of the fast path of `strconv.Atoi`: `ch -= '0'` leaves a
value above 9 for every byte that is not a decimal digit. -/
def atoiFastLoop : List Char → Int → Except NumError Int
  | [], n => .ok n
  | ch :: cs, n =>
    if '0' ≤ ch ∧ ch ≤ '9' then atoiFastLoop cs (n * 10 + ((ch.toNat - '0'.toNat : Nat) : Int))
    else .error .ErrSyntax

/-- Go `strconv.Atoi(s)`: a fast path for strings of fewer than 19 bytes, which
cannot overflow `int`, and `ParseInt(s, 10, 0)` for the others. -/
def Atoi (s : List Char) : Except NumError Int :=
  if (intSize = 32 ∧ (0 < len s ∧ len s < 10)) ∨ (intSize = 64 ∧ (0 < len s ∧ len s < 19)) then
    match s with
    | [] => .error .ErrSyntax
    | c :: cs =>
      let s1 := if c = '-' ∨ c = '+' then cs else s
      if (c = '-' ∨ c = '+') ∧ len s1 < 1 then .error .ErrSyntax
      else
        match atoiFastLoop s1 0 with
        | .error e => .error e
        | .ok n => .ok (if c = '-' then - n else n)
  else ParseInt s 0

/-! ## fmt: `Sscanf(str, "%d", &count)` -/

/-- What `fmt.Sscanf` with the format `%d` can report. -/
inductive ScanError where
  | EOF
  | unexpectedNewline
  | expectedInteger
  | parse (e : NumError)
deriving DecidableEq, Repr

/-- The table `space` of package fmt: the ranges of white space characters. -/
def space : List (Nat × Nat) :=
  [(0x0009, 0x000d), (0x0020, 0x0020), (0x0085, 0x0085), (0x00a0, 0x00a0),
   (0x1680, 0x1680), (0x2000, 0x200a), (0x2028, 0x2029), (0x202f, 0x202f),
   (0x205f, 0x205f), (0x3000, 0x3000)]

/-- The search of `fmt.isSpace` through the sorted table. -/
def isSpaceIn : List (Nat × Nat) → Nat → Bool
  | [], _ => false
  | (lo, hi) :: rest, rx =>
    if rx < lo then false
    else if rx ≤ hi then true
    else isSpaceIn rest rx

/-- Go `fmt.isSpace(r)`. -/
def isSpace (r : Char) : Bool :=
  if r.toNat ≥ 2 ^ 16 then false else isSpaceIn space r.toNat

/-- The constant `decimalDigits` of package fmt. -/
def decimalDigits : List Char := "0123456789".toList

/-- The constant `sign` of package fmt. -/
def sign : List Char := "+-".toList

/-- Method `SkipSpace` of the scan state, on the input still to be read, with
`nlIsSpace = false` as `Sscanf` sets it: a newline among the leading spaces is
an error. -/
def SkipSpace : List Char → Except ScanError (List Char)
  | [] => .ok []
  | r :: rest =>
    if r = '\r' ∧ rest.head? = some '\n' then SkipSpace rest
    else if r = '\n' then .error .unexpectedNewline
    else if ¬ isSpace r then .ok (r :: rest)
    else SkipSpace rest

/-- Method `scanInt(verb, bitSize)` of the scan state for `verb = 'd'` and
`bitSize = 64`: skip spaces, accept one sign, then `scanNumber` takes the
longest run of decimal digits (at least one), and `ParseInt` converts the
token. The input after the token is left unread. -/
def scanInt (input : List Char) : Except ScanError Int :=
  match SkipSpace input with
  | .error e => .error e
  | .ok [] => .error .EOF
  | .ok (r :: rest) =>
    let signTok : List Char := if sign.contains r then [r] else []
    let in1 : List Char := if sign.contains r then rest else r :: rest
    match in1 with
    | [] => .error .EOF
    | d :: in2 =>
      if ¬ decimalDigits.contains d then .error .expectedInteger
      else
        let tok := signTok ++ d :: in2.takeWhile decimalDigits.contains
        match ParseInt tok 64 with
        | .error e => .error (.parse e)
        | .ok i => .ok i

/-- Go `fmt.Sscanf(str, "%d", &v)` for `v` of type `*int64`: the value stored
in `v`, or the error returned. `doScanf` skips spaces before the verb and
`scanOne` calls `scanInt`. -/
def Sscanf (str : List Char) : Except ScanError Int :=
  match SkipSpace str with
  | .error e => .error e
  | .ok input => scanInt input

/-! ## The data of `main.go` and of the SDK request -/

/-- The enumeration `pb.OrderDirection`. -/
inductive OrderDirection where
  | ORDER_DIRECTION_UNSPECIFIED
  | ORDER_DIRECTION_BUY
  | ORDER_DIRECTION_SELL
deriving DecidableEq, Repr

/-- The enumeration `pb.OrderType`. -/
inductive OrderType where
  | ORDER_TYPE_UNSPECIFIED
  | ORDER_TYPE_LIMIT
  | ORDER_TYPE_MARKET
  | ORDER_TYPE_BESTPRICE
deriving DecidableEq, Repr

/-- The message `pb.Quotation`: `Units` is an `int64`, `Nano` an `int32`. -/
structure Quotation where
  Units : Int
  Nano : Int
deriving DecidableEq, Repr

/-- The struct `Trade` of `main.go`. -/
structure Trade where
  FIGI : List Char
  Operation : OrderDirection
  Price : Quotation
  Count : Int
deriving DecidableEq, Repr

/-- The struct `investgo.PostOrderRequest`. -/
structure PostOrderRequest where
  InstrumentId : List Char
  Quantity : Int
  Price : Quotation
  Direction : OrderDirection
  AccountId : String
  OrderType : OrderType
  OrderId : String
deriving DecidableEq, Repr

/-- The conversion `int32(n)` of an `int`: the low 32 bits, read as signed. -/
def toInt32 (n : Int) : Int := (n + 2 ^ 31) % 2 ^ 32 - 2 ^ 31

/-- The conversion `int64(n)` of an `int`: the low 64 bits, read as signed. -/
def toInt64 (n : Int) : Int := (n + 2 ^ 63) % 2 ^ 64 - 2 ^ 63

/-! ## The loop of `main` -/

/-- How the parsing step of one pass of the loop ends (lines 82 to 129). -/
inductive ParseOutcome where
  -- `continue` at `len(fields) != 4`, nothing logged
  | skip
  -- `log.Printf` of "error parsing price: ..." and `continue`
  | priceError (err : NumError)
  -- `log.Printf` of "error parsing count: ..." and `continue`
  | countError (err : ScanError)
  -- a run-time panic, index out of range
  | indexPanic
  -- the trade is built and goes on to `PostOrder`
  | trade (t : Trade)
deriving DecidableEq, Repr

/-- The `switch fields[1]` of the loop. -/
def operationOf (field : List Char) : OrderDirection :=
  if field = "BUY".toList then .ORDER_DIRECTION_BUY
  else if field = "SELL".toList then .ORDER_DIRECTION_SELL
  else .ORDER_DIRECTION_UNSPECIFIED

/-- The parsing step of the loop on the fields of a line, after the check that
there are four of them. An index past the end of `priceParts` panics. -/
def parseFields (f0 f1 f2 f3 : List Char) : ParseOutcome :=
  let operation := operationOf f1
  let priceParts := Split f2 '.'
  match priceParts[0]? with
  | none => .indexPanic
  | some p0 =>
    match Atoi p0 with
    | .error err => .priceError err
    | .ok units =>
      match priceParts[1]? with
      | none => .indexPanic
      | some p1 =>
        match Atoi p1 with
        | .error err => .priceError err
        | .ok nano =>
          match Sscanf f3 with
          | .error err => .countError err
          | .ok count =>
            .trade { FIGI := f0, Operation := operation,
                     Price := { Units := toInt64 units, Nano := toInt32 nano },
                     Count := count }

/-- The parsing step of one pass of the loop on the text of a line. -/
def parseLine (line : List Char) : ParseOutcome :=
  match Split line ';' with
  | [f0, f1, f2, f3] => parseFields f0 f1 f2 f3
  | _ => .skip

/-- What one pass of the loop writes or sends, in order. -/
inductive Event where
  | logParsePrice (err : NumError)
  | logParseCount (err : ScanError)
  | printTrade (t : Trade)
  | postOrder (req : PostOrderRequest)
  | logPostError (msg : String)
  | printResp (status : String)
deriving DecidableEq, Repr

/-- The external orders service, as a machine with a state `σ` of its own:
`CreateUid` gives a fresh order id, `PostOrder` answers a request with an
error message or with an execution report status. -/
structure OrdersService (σ : Type) where
  CreateUid : σ → String × σ
  PostOrder : σ → PostOrderRequest → Except String String × σ

/-- The result of one pass or of a run of the loop: what was written and sent,
the state the service is left in, and whether the program panicked. -/
structure Run (σ : Type) where
  events : List Event
  state : σ
  panicked : Bool

/-- The request built at lines 133 to 141. -/
def mkRequest (accountId : String) (t : Trade) (uid : String) : PostOrderRequest :=
  { InstrumentId := t.FIGI, Quantity := t.Count, Price := t.Price,
    Direction := t.Operation, AccountId := accountId,
    OrderType := .ORDER_TYPE_LIMIT, OrderId := uid }

/-- One pass of the loop of `main` on a line. -/
def loopBody {σ : Type} (svc : OrdersService σ) (accountId : String) (w : σ)
    (line : List Char) : Run σ :=
  match parseLine line with
  | .skip => ⟨[], w, false⟩
  | .priceError err => ⟨[.logParsePrice err], w, false⟩
  | .countError err => ⟨[.logParseCount err], w, false⟩
  | .indexPanic => ⟨[], w, true⟩
  | .trade t =>
    let (uid, w1) := svc.CreateUid w
    let req := mkRequest accountId t uid
    let (resp, w2) := svc.PostOrder w1 req
    match resp with
    | .error msg => ⟨[.printTrade t, .postOrder req, .logPostError msg], w2, false⟩
    | .ok status => ⟨[.printTrade t, .postOrder req, .printResp status], w2, false⟩

/-- The loop of `main` over the lines the scanner yields; a panic ends it. -/
def mainLoop {σ : Type} (svc : OrdersService σ) (accountId : String) :
    σ → List (List Char) → Run σ
  | w, [] => ⟨[], w, false⟩
  | w, line :: rest =>
    let r := loopBody svc accountId w line
    if r.panicked then r
    else
      let r2 := mainLoop svc accountId r.state rest
      ⟨r.events ++ r2.events, r2.state, r2.panicked⟩

/-- The requests a run handed to `PostOrder`, in order. -/
def placedOrders : List Event → List PostOrderRequest
  | [] => []
  | .postOrder req :: rest => req :: placedOrders rest
  | _ :: rest => placedOrders rest

/-- The parse errors a run logged, counted. -/
def parseErrorsLogged : List Event → Nat
  | [] => 0
  | .logParsePrice _ :: rest => parseErrorsLogged rest + 1
  | .logParseCount _ :: rest => parseErrorsLogged rest + 1
  | _ :: rest => parseErrorsLogged rest

/-- A service for the worked examples: it hands out one fixed order id and
rejects every request, counting the calls in its state. -/
def rejectingService : OrdersService Nat :=
  { CreateUid := fun w => ("uid", w),
    PostOrder := fun w _ => (.error "rejected", w + 1) }

/-- The trade a request was built from. -/
def tradeOfRequest (req : PostOrderRequest) : Trade :=
  { FIGI := req.InstrumentId, Operation := req.Direction, Price := req.Price,
    Count := req.Quantity }

/-- The trade of a line whose parsing step builds one. -/
def builtTrade (line : List Char) : Option Trade :=
  match parseLine line with
  | .trade t => some t
  | _ => none

/-! ## The words of the specification -/

/-- A decimal digit, `0` to `9`. -/
def isDigit (c : Char) : Bool := decide ('0' ≤ c ∧ c ≤ '9')

/-- The number a string of decimal digits writes, continuing from `n`. -/
def natValueFrom : List Char → Nat → Nat
  | [], n => n
  | c :: cs, n => natValueFrom cs (n * 10 + (c.toNat - '0'.toNat))

/-- The number a string of decimal digits writes. -/
def natValue (ds : List Char) : Nat := natValueFrom ds 0

/-- A base-10 integer string: an optional sign `+` or `-`, then one decimal
digit or more, and nothing else. -/
def isIntString : List Char → Bool
  | [] => false
  | c :: cs =>
    if c = '+' ∨ c = '-' then !cs.isEmpty && cs.all isDigit
    else (c :: cs).all isDigit

/-- The integer a base-10 integer string writes. -/
def intValue : List Char → Int
  | [] => 0
  | c :: cs =>
    if c = '-' then - (natValue cs : Int)
    else if c = '+' then (natValue cs : Int)
    else (natValue (c :: cs) : Int)

/-- The digits of a non-empty string: what follows its sign, or all of it. -/
def digitsOf (c : Char) (cs : List Char) : List Char :=
  if c = '+' ∨ c = '-' then cs else c :: cs

/-- The range of `int64`. -/
def inInt64 (v : Int) : Prop := -2 ^ 63 ≤ v ∧ v < 2 ^ 63

/-- The range of `int32`. -/
def inInt32 (v : Int) : Prop := -2 ^ 31 ≤ v ∧ v < 2 ^ 31

/-- The text at the start of a field that can be read as an integer: after
the leading white space, an optional sign and the decimal digits that follow. -/
def leadingIntToken (s : List Char) : List Char :=
  match s.dropWhile isSpace with
  | [] => []
  | c :: cs =>
    if c = '+' ∨ c = '-' then c :: cs.takeWhile isDigit
    else (c :: cs).takeWhile isDigit

/-! ## Lemmas on the library routines -/

theorem Split_ne_nil (s : List Char) (sep : Char) : Split s sep ≠ [] := by
  induction s with
  | nil => simp [Split]
  | cons c rest ih =>
    unfold Split
    split
    · simp
    · split <;> simp

theorem Split_cons_ne (c : Char) (rest : List Char) (sep : Char) (hc : c ≠ sep) :
    Split (c :: rest) sep =
      match Split rest sep with
      | [] => [[c]]
      | h :: t => (c :: h) :: t := by
  rw [Split, if_neg hc]

theorem Split_cons_eq (rest : List Char) (sep : Char) :
    Split (sep :: rest) sep = [] :: Split rest sep := by
  rw [Split, if_pos rfl]

theorem Split_of_not_mem (s : List Char) (sep : Char) (h : sep ∉ s) :
    Split s sep = [s] := by
  induction s with
  | nil => simp [Split]
  | cons c rest ih =>
    have hc : c ≠ sep := fun e => h (by simp [e])
    have hr : sep ∉ rest := fun e => h (by simp [e])
    rw [Split_cons_ne _ _ _ hc, ih hr]

theorem Split_append_sep (a b : List Char) (sep : Char) (h : sep ∉ a) :
    Split (a ++ sep :: b) sep = a :: Split b sep := by
  induction a with
  | nil => exact Split_cons_eq b sep
  | cons c rest ih =>
    have hc : c ≠ sep := fun e => h (by simp [e])
    have hr : sep ∉ rest := fun e => h (by simp [e])
    show Split (c :: (rest ++ sep :: b)) sep = _
    rw [Split_cons_ne _ _ _ hc, ih hr]

theorem isDigit_iff (c : Char) : isDigit c = true ↔ '0' ≤ c ∧ c ≤ '9' := by
  simp [isDigit]

theorem isDigit_toNat (c : Char) (h : isDigit c = true) :
    48 ≤ c.toNat ∧ c.toNat ≤ 57 := by
  rw [isDigit_iff, Char.le_def, Char.le_def] at h
  exact ⟨h.1, h.2⟩

theorem mem_decimalDigits (c : Char) : decimalDigits.contains c = isDigit c := by
  by_cases hd : isDigit c = true
  · rw [hd]
    obtain ⟨h3, h4⟩ := isDigit_toNat c hd
    have hc : c = Char.ofNat c.toNat := (Char.ofNat_toNat c).symm
    rw [hc]
    generalize c.toNat = n at h3 h4
    interval_cases n <;> decide
  · have hd2 : isDigit c = false := by simpa using hd
    rw [hd2]
    by_contra hcon
    have hm : c ∈ decimalDigits := by simpa using hcon
    simp only [decimalDigits, String.toList] at hm
    apply hd
    simp only [List.mem_cons, List.mem_singleton] at hm
    rcases hm with h | h | h | h | h | h | h | h | h | h | h
    all_goals first | (subst h; decide) | simp at h

theorem mem_sign (c : Char) : sign.contains c = decide (c = '+' ∨ c = '-') := by
  simp [sign, String.toList]

theorem isDigit_not_sign (c : Char) (h : isDigit c = true) : c ≠ '+' ∧ c ≠ '-' := by
  constructor <;> (intro e; subst e; revert h; decide)

theorem isDigit_not_space (c : Char) (h : isDigit c = true) : isSpace c = false := by
  obtain ⟨h3, h4⟩ := isDigit_toNat c h
  have hc : c = Char.ofNat c.toNat := (Char.ofNat_toNat c).symm
  rw [hc]
  generalize c.toNat = n at h3 h4
  interval_cases n <;> decide

theorem len_digits (ds : List Char) (h : ds.all isDigit = true) : len ds = ds.length := by
  induction ds with
  | nil => rfl
  | cons c cs ih =>
    simp only [List.all_cons, Bool.and_eq_true] at h
    have h1 : c.utf8Size = 1 := by
      obtain ⟨h3, h4⟩ := isDigit_toNat c h.1
      have hc : c = Char.ofNat c.toNat := (Char.ofNat_toNat c).symm
      rw [hc]
      generalize c.toNat = n at h3 h4
      interval_cases n <;> decide
    have := ih h.2
    simp only [len, List.map_cons, List.sum_cons, List.length_cons] at *
    omega

theorem len_pos (c : Char) (cs : List Char) : 0 < len (c :: cs) := by
  have := Char.utf8Size_pos c
  simp only [len, List.map_cons, List.sum_cons]
  omega

theorem len_cons (c : Char) (cs : List Char) : len (c :: cs) = c.utf8Size + len cs := by
  simp [len]

theorem natValueFrom_eq (ds : List Char) (n : Nat) :
    natValueFrom ds n = n * 10 ^ ds.length + natValueFrom ds 0 := by
  induction ds generalizing n with
  | nil => simp [natValueFrom]
  | cons c cs ih =>
    simp only [natValueFrom, List.length_cons]
    rw [ih (n * 10 + _), ih (0 * 10 + _)]
    ring

theorem natValueFrom_ge (ds : List Char) (n : Nat) : n ≤ natValueFrom ds n := by
  rw [natValueFrom_eq]
  have : 1 ≤ 10 ^ ds.length := Nat.one_le_pow _ _ (by norm_num)
  nlinarith

theorem natValue_lt (ds : List Char) (h : ds.all isDigit = true) :
    natValueFrom ds 0 < 10 ^ ds.length := by
  induction ds using List.reverseRecOn with
  | nil => simp [natValueFrom]
  | append_singleton cs c ih =>
    simp only [List.all_append, Bool.and_eq_true, List.all_cons, List.all_nil] at h
    have hc := isDigit_toNat c h.2.1
    have ih2 := ih h.1
    have key : ∀ (xs : List Char) (n : Nat),
        natValueFrom (xs ++ [c]) n = natValueFrom xs n * 10 + (c.toNat - '0'.toNat) := by
      intro xs
      induction xs with
      | nil => intro n; simp [natValueFrom]
      | cons x xs ihx => intro n; simp only [List.cons_append, natValueFrom]; exact ihx _
    rw [key]
    have h0 : '0'.toNat = 48 := by decide
    rw [h0]
    simp only [List.length_append, List.length_singleton, pow_succ]
    omega

theorem digitOf_of_isDigit (c : Char) (h : isDigit c = true) :
    digitOf c = some (c.toNat - '0'.toNat) := by
  rw [isDigit_iff] at h
  simp [digitOf, h]

theorem digitOf_not_isDigit (c : Char) (h : isDigit c = false) :
    digitOf c = none ∨ ∃ d, digitOf c = some d ∧ 10 ≤ d := by
  have h2 : ¬ ('0' ≤ c ∧ c ≤ '9') := by
    intro hh
    rw [(isDigit_iff c).2 hh] at h
    exact Bool.noConfusion h
  unfold digitOf
  rw [if_neg h2]
  split
  · right
    exact ⟨_, rfl, by omega⟩
  · left
    rfl

theorem parseUintLoop_digits (ds : List Char) (n : Nat) (h : ds.all isDigit = true)
    (hn : n ≤ 2 ^ 64 - 1) :
    parseUintLoop (2 ^ 64 - 1) ds n =
      if natValueFrom ds n ≤ 2 ^ 64 - 1 then .ok (natValueFrom ds n) else .error .ErrRange := by
  induction ds generalizing n with
  | nil => simp only [parseUintLoop, natValueFrom]; rw [if_pos hn]
  | cons c cs ih =>
    simp only [List.all_cons, Bool.and_eq_true] at h
    have hc := isDigit_toNat c h.1
    have h0 : '0'.toNat = 48 := by decide
    have hge := natValueFrom_ge cs (n * 10 + (c.toNat - '0'.toNat))
    rw [h0] at hge
    simp only [parseUintLoop, digitOf_of_isDigit c h.1, natValueFrom, h0, maxUint64]
    have hd : ¬ (c.toNat - 48 ≥ 10) := by omega
    rw [if_neg hd]
    by_cases hcut : n ≥ (2 ^ 64 - 1) / 10 + 1
    · rw [if_pos hcut]
      have : ¬ natValueFrom cs (n * 10 + (c.toNat - 48)) ≤ 2 ^ 64 - 1 := by
        norm_num at hcut ⊢
        omega
      rw [if_neg this]
    · rw [if_neg hcut]
      norm_num at hcut
      have h10 : n * 10 % 2 ^ 64 = n * 10 := Nat.mod_eq_of_lt (by norm_num; omega)
      by_cases hov : n * 10 + (c.toNat - 48) < 2 ^ 64
      · have h11 : (n * 10 + (c.toNat - 48)) % 2 ^ 64 = n * 10 + (c.toNat - 48) :=
          Nat.mod_eq_of_lt hov
        simp only [h10, h11]
        have hno : ¬ (n * 10 + (c.toNat - 48) < n * 10 ∨ n * 10 + (c.toNat - 48) > 2 ^ 64 - 1) := by
          norm_num at hov ⊢
          omega
        rw [if_neg hno]
        exact ih _ h.2 (by norm_num at hov ⊢; omega)
      · have h11 : (n * 10 + (c.toNat - 48)) % 2 ^ 64 < n * 10 := by
          norm_num at hov ⊢
          omega
        simp only [h10]
        rw [if_pos (Or.inl h11)]
        have : ¬ natValueFrom cs (n * 10 + (c.toNat - 48)) ≤ 2 ^ 64 - 1 := by
          norm_num at hov ⊢
          omega
        rw [if_neg this]

theorem parseUintLoop_not_digits (maxVal : Nat) (ds : List Char) (n : Nat)
    (h : ds.all isDigit = false) (v : Nat) : parseUintLoop maxVal ds n ≠ .ok v := by
  induction ds generalizing n with
  | nil => simp at h
  | cons c cs ih =>
    simp only [parseUintLoop]
    by_cases hc : isDigit c = true
    · have hcs : cs.all isDigit = false := by
        simp only [List.all_cons, hc, Bool.true_and] at h
        exact h
      rw [digitOf_of_isDigit c hc]
      simp only []
      split
      · simp
      · split
        · simp
        · split
          · simp
          · exact ih _ hcs
    · have hc2 : isDigit c = false := by simpa using hc
      rcases digitOf_not_isDigit c hc2 with h1 | ⟨d, h1, h2⟩
      · rw [h1]; simp
      · rw [h1]
        simp only []
        rw [if_pos h2]
        simp

/-- Unfolding of `isIntString` on a non-empty string. -/
theorem isIntString_cons (c : Char) (cs : List Char) :
    isIntString (c :: cs) =
      (if c = '+' ∨ c = '-' then !cs.isEmpty && cs.all isDigit else (c :: cs).all isDigit) := rfl

theorem ParseUint_digits (b : Nat) (hb : b = 0 ∨ b = 64) (ds : List Char) (hne : ds ≠ [])
    (h : ds.all isDigit = true) :
    ParseUint ds b =
      if natValue ds ≤ 2 ^ 64 - 1 then .ok (natValue ds) else .error .ErrRange := by
  unfold ParseUint
  rw [if_neg hne]
  have hb2 : (if b = 0 then intSize else b) = 64 := by
    rcases hb with hb | hb <;> simp [hb, intSize]
  simp only [hb2]
  exact parseUintLoop_digits ds 0 h (by norm_num)

theorem ParseUint_not_digits (b : Nat) (ds : List Char)
    (h : ds = [] ∨ ds.all isDigit = false) (v : Nat) : ParseUint ds b ≠ .ok v := by
  unfold ParseUint
  by_cases hne : ds = []
  · rw [if_pos hne]; simp
  · rw [if_neg hne]
    rcases h with h | h
    · exact absurd h hne
    · exact parseUintLoop_not_digits _ ds 0 h v

theorem ParseInt_body (b : Nat) (hb : b = 0 ∨ b = 64) (neg : Prop) [Decidable neg]
    (r : Except NumError Nat) :
    (match r with
      | .error .ErrSyntax => (.error .ErrSyntax : Except NumError Int)
      | r =>
        let bitSize := if b = 0 then intSize else b
        let un : Nat := match r with
          | .ok un => un
          | .error _ => 2 ^ bitSize - 1
        let cutoff := 2 ^ (bitSize - 1)
        if ¬ neg ∧ un ≥ cutoff then .error .ErrRange
        else if neg ∧ un > cutoff then .error .ErrRange
        else .ok (if neg then - (un : Int) else (un : Int))) =
    (match r with
      | .error e => .error e
      | .ok un =>
        if ¬ neg ∧ un ≥ 2 ^ 63 then .error .ErrRange
        else if neg ∧ un > 2 ^ 63 then .error .ErrRange
        else .ok (if neg then - (un : Int) else (un : Int))) := by
  have hb2 : (if b = 0 then intSize else b) = 64 := by
    rcases hb with hb | hb <;> simp [hb, intSize]
  rcases r with e | un
  · cases e
    · rfl
    · simp only [hb2]
      by_cases hn : neg
      · simp [hn]
      · simp [hn]
  · simp only [hb2]

theorem ParseInt_cons (b : Nat) (hb : b = 0 ∨ b = 64) (c : Char) (cs : List Char) :
    ParseInt (c :: cs) b =
      match ParseUint (if c = '+' ∨ c = '-' then cs else c :: cs) b with
      | .error e => .error e
      | .ok un =>
        if ¬ (c = '-') ∧ un ≥ 2 ^ 63 then .error .ErrRange
        else if c = '-' ∧ un > 2 ^ 63 then .error .ErrRange
        else .ok (if c = '-' then - (un : Int) else (un : Int)) := by
  unfold ParseInt
  exact ParseInt_body b hb (c = '-') _

theorem intValue_cons (c : Char) (cs : List Char) :
    intValue (c :: cs) =
      (if c = '-' then - (natValue cs : Int)
       else if c = '+' then (natValue cs : Int) else (natValue (c :: cs) : Int)) := rfl

theorem isIntString_digitsOf (c : Char) (cs : List Char) :
    isIntString (c :: cs) = true ↔ digitsOf c cs ≠ [] ∧ (digitsOf c cs).all isDigit = true := by
  rw [isIntString_cons]
  unfold digitsOf
  by_cases hs : c = '+' ∨ c = '-'
  · simp only [if_pos hs, Bool.and_eq_true, Bool.not_eq_true', List.isEmpty_eq_false]
  · simp only [if_neg hs]
    constructor
    · intro h; exact ⟨by simp, h⟩
    · intro h; exact h.2

theorem intValue_digitsOf (c : Char) (cs : List Char) :
    intValue (c :: cs) =
      if c = '-' then - (natValue (digitsOf c cs) : Int) else (natValue (digitsOf c cs) : Int) := by
  rw [intValue_cons]
  unfold digitsOf
  by_cases h1 : c = '-'
  · simp [h1]
  · by_cases h2 : c = '+'
    · simp [h2]
    · simp [h1, h2]

theorem ParseInt_ok_iff (b : Nat) (hb : b = 0 ∨ b = 64) (s : List Char) (v : Int) :
    ParseInt s b = .ok v ↔ isIntString s = true ∧ intValue s = v ∧ inInt64 v := by
  cases s with
  | nil => simp [ParseInt, isIntString]
  | cons c cs =>
    rw [ParseInt_cons b hb, isIntString_digitsOf]
    show (match ParseUint (digitsOf c cs) b with
      | .error e => .error e
      | .ok un =>
        if ¬ (c = '-') ∧ un ≥ 2 ^ 63 then .error .ErrRange
        else if c = '-' ∧ un > 2 ^ 63 then .error .ErrRange
        else .ok (if c = '-' then - (un : Int) else (un : Int))) = Except.ok v ↔ _
    by_cases hd : digitsOf c cs ≠ [] ∧ (digitsOf c cs).all isDigit = true
    · rw [ParseUint_digits b hb _ hd.1 hd.2, intValue_digitsOf c cs]
      unfold inInt64
      by_cases hmax : natValue (digitsOf c cs) ≤ 2 ^ 64 - 1
      · rw [if_pos hmax]
        simp only []
        by_cases hneg : c = '-'
        · simp only [hneg, not_true_eq_false, false_and, if_false, true_and, if_true]
          by_cases hr : natValue (digitsOf '-' cs) > 2 ^ 63
          · rw [if_pos hr]
            constructor
            · intro h; exact Except.noConfusion h
            · rintro ⟨-, h2, h3, -⟩
              exfalso
              have : (natValue (digitsOf '-' cs) : Int) > 2 ^ 63 := by exact_mod_cast hr
              omega
          · rw [if_neg hr]
            constructor
            · intro h
              have hv : -(natValue (digitsOf '-' cs) : Int) = v := by
                injection h
              have : (natValue (digitsOf '-' cs) : Int) ≤ 2 ^ 63 := by
                have := Nat.le_of_not_gt hr
                exact_mod_cast this
              rw [hneg] at hd
              exact ⟨hd, hv, by omega, by omega⟩
            · rintro ⟨-, h2, -⟩
              rw [h2]
        · simp only [hneg, not_false_eq_true, true_and, false_and, if_false]
          by_cases hr : natValue (digitsOf c cs) ≥ 2 ^ 63
          · rw [if_pos hr]
            constructor
            · intro h; exact Except.noConfusion h
            · rintro ⟨-, h2, -, h4⟩
              exfalso
              have : (natValue (digitsOf c cs) : Int) ≥ 2 ^ 63 := by exact_mod_cast hr
              omega
          · rw [if_neg hr]
            constructor
            · intro h
              have hv : (natValue (digitsOf c cs) : Int) = v := by
                injection h
              have : (natValue (digitsOf c cs) : Int) < 2 ^ 63 := by
                have := Nat.lt_of_not_ge hr
                exact_mod_cast this
              exact ⟨hd, hv, by omega, by omega⟩
            · rintro ⟨-, h2, -⟩
              rw [h2]
      · rw [if_neg hmax]
        simp only []
        constructor
        · intro h; exact Except.noConfusion h
        · rintro ⟨-, h2, h3, h4⟩
          exfalso
          have h5 := Nat.lt_of_not_ge hmax
          norm_num at h5
          have hbig : (18446744073709551615 : Int) < (natValue (digitsOf c cs) : Int) := by
            exact_mod_cast h5
          by_cases hneg : c = '-'
          · rw [if_pos hneg] at h2; omega
          · rw [if_neg hneg] at h2; omega
    · have hbad : digitsOf c cs = [] ∨ (digitsOf c cs).all isDigit = false := by
        by_cases h1 : digitsOf c cs = []
        · exact Or.inl h1
        · right
          by_contra h2
          exact hd ⟨h1, by simpa using h2⟩
      have hno := ParseUint_not_digits b _ hbad
      constructor
      · intro h
        exfalso
        cases hr : ParseUint (digitsOf c cs) b with
        | error e => rw [hr] at h; exact Except.noConfusion h
        | ok un => exact hno un hr
      · rintro ⟨h1, -⟩
        exact absurd h1 hd

theorem atoiFastLoop_digits (ds : List Char) (n : Nat) (h : ds.all isDigit = true) :
    atoiFastLoop ds (n : Int) = .ok (natValueFrom ds n : Int) := by
  induction ds generalizing n with
  | nil => rfl
  | cons c cs ih =>
    simp only [List.all_cons, Bool.and_eq_true] at h
    have hc := (isDigit_iff c).1 h.1
    simp only [atoiFastLoop, natValueFrom]
    rw [if_pos hc]
    have := ih (n * 10 + (c.toNat - '0'.toNat)) h.2
    rw [← this]
    push_cast
    rfl

theorem atoiFastLoop_not_digits (ds : List Char) (n : Int) (h : ds.all isDigit = false) :
    atoiFastLoop ds n = .error .ErrSyntax := by
  induction ds generalizing n with
  | nil => simp at h
  | cons c cs ih =>
    simp only [atoiFastLoop]
    by_cases hc : '0' ≤ c ∧ c ≤ '9'
    · rw [if_pos hc]
      apply ih
      have hd := (isDigit_iff c).2 hc
      simp only [List.all_cons, hd, Bool.true_and] at h
      exact h
    · rw [if_neg hc]

theorem len_eq_zero (s : List Char) (h : len s < 1) : s = [] := by
  cases s with
  | nil => rfl
  | cons c cs => have := len_pos c cs; omega

theorem Atoi_fast (c : Char) (cs : List Char) :
    (let s1 := if c = '-' ∨ c = '+' then cs else c :: cs
     if (c = '-' ∨ c = '+') ∧ len s1 < 1 then (.error .ErrSyntax : Except NumError Int)
     else
       match atoiFastLoop s1 0 with
       | .error e => .error e
       | .ok n => .ok (if c = '-' then - n else n)) =
    if digitsOf c cs ≠ [] ∧ (digitsOf c cs).all isDigit = true then
      .ok (if c = '-' then - (natValue (digitsOf c cs) : Int) else (natValue (digitsOf c cs) : Int))
    else .error .ErrSyntax := by
  have hs : (if c = '-' ∨ c = '+' then cs else c :: cs) = digitsOf c cs := by
    unfold digitsOf
    by_cases h : c = '+' ∨ c = '-'
    · rw [if_pos h, if_pos h.symm]
    · rw [if_neg h, if_neg (fun h2 => h h2.symm)]
  simp only [hs]
  by_cases hsign : c = '-' ∨ c = '+'
  · by_cases hl : len (digitsOf c cs) < 1
    · rw [if_pos ⟨hsign, hl⟩, if_neg]
      rintro ⟨h1, -⟩
      exact h1 (len_eq_zero _ hl)
    · rw [if_neg (fun h => hl h.2)]
      have hne : digitsOf c cs ≠ [] := by
        intro e; rw [e] at hl; exact hl (by decide)
      by_cases hd : (digitsOf c cs).all isDigit = true
      · rw [if_pos ⟨hne, hd⟩]
        have := atoiFastLoop_digits (digitsOf c cs) 0 hd
        simp only [Nat.cast_zero] at this
        rw [this]
        rfl
      · rw [if_neg (fun h => hd h.2)]
        rw [atoiFastLoop_not_digits _ _ (by simpa using hd)]
  · rw [if_neg (fun h => hsign h.1)]
    have hne : digitsOf c cs ≠ [] := by
      unfold digitsOf
      rw [if_neg (fun h2 => hsign h2.symm)]
      simp
    by_cases hd : (digitsOf c cs).all isDigit = true
    · rw [if_pos ⟨hne, hd⟩]
      have := atoiFastLoop_digits (digitsOf c cs) 0 hd
      simp only [Nat.cast_zero] at this
      rw [this]
      rfl
    · rw [if_neg (fun h => hd h.2)]
      rw [atoiFastLoop_not_digits _ _ (by simpa using hd)]

theorem len_digitsOf_le (c : Char) (cs : List Char) : len (digitsOf c cs) ≤ len (c :: cs) := by
  unfold digitsOf
  split
  · rw [len_cons]; omega
  · exact le_refl _

/-- The function `strconv.Atoi` accepts exactly the base-10 integer strings whose
value fits `int`, and returns that value. -/
theorem Atoi_ok_iff (s : List Char) (v : Int) :
    Atoi s = .ok v ↔ isIntString s = true ∧ intValue s = v ∧ inInt64 v := by
  unfold Atoi
  by_cases hfast : (intSize = 32 ∧ (0 < len s ∧ len s < 10)) ∨
      (intSize = 64 ∧ (0 < len s ∧ len s < 19))
  · rw [if_pos hfast]
    have hlen19 : len s < 19 := by
      rcases hfast with h | h
      · exact absurd h.1 (by decide)
      · exact h.2.2
    cases s with
    | nil => simp [isIntString]
    | cons c cs =>
      simp only []
      rw [Atoi_fast c cs, isIntString_digitsOf, intValue_digitsOf]
      by_cases hd : digitsOf c cs ≠ [] ∧ (digitsOf c cs).all isDigit = true
      · rw [if_pos hd]
        have hlen : (digitsOf c cs).length < 19 := by
          rw [← len_digits _ hd.2]
          exact lt_of_le_of_lt (len_digitsOf_le c cs) hlen19
        have hlt := natValue_lt _ hd.2
        have hpow : 10 ^ (digitsOf c cs).length ≤ 10 ^ 18 :=
          Nat.pow_le_pow_right (by norm_num) (by omega)
        have hv : natValue (digitsOf c cs) < 10 ^ 18 := lt_of_lt_of_le hlt hpow
        have hv2 : (natValue (digitsOf c cs) : Int) < 10 ^ 18 := by exact_mod_cast hv
        have hv3 : (0 : Int) ≤ (natValue (digitsOf c cs) : Int) := Int.natCast_nonneg _
        constructor
        · intro h
          injection h with h
          refine ⟨hd, h, ?_⟩
          unfold inInt64
          rw [← h]
          split <;> constructor <;> norm_num <;> omega
        · rintro ⟨-, h, -⟩
          rw [h]
      · rw [if_neg hd]
        constructor
        · intro h; exact Except.noConfusion h
        · rintro ⟨h, -⟩; exact absurd h hd
  · rw [if_neg hfast]
    exact ParseInt_ok_iff 0 (Or.inl rfl) s v

/-- The function `strconv.Atoi` fails on every string that is not a base-10
integer string whose value fits `int`. -/
theorem Atoi_error_of_not_int64 (s : List Char)
    (h : ¬ (isIntString s = true ∧ inInt64 (intValue s))) : ∃ e, Atoi s = .error e := by
  cases hr : Atoi s with
  | error e => exact ⟨e, rfl⟩
  | ok v =>
    obtain ⟨h1, h2, h3⟩ := (Atoi_ok_iff s v).1 hr
    rw [← h2] at h3
    exact absurd ⟨h1, h3⟩ h

theorem Atoi_inInt64 (s : List Char) (v : Int) (h : Atoi s = .ok v) : inInt64 v :=
  ((Atoi_ok_iff s v).1 h).2.2

theorem toInt64_of_inInt64 (v : Int) (h : inInt64 v) : toInt64 v = v := by
  unfold inInt64 at h
  unfold toInt64
  omega

theorem toInt32_of_inInt32 (v : Int) (h : inInt32 v) : toInt32 v = v := by
  unfold inInt32 at h
  unfold toInt32
  omega

theorem toInt32_inInt32 (v : Int) : inInt32 (toInt32 v) := by
  unfold inInt32 toInt32
  omega

theorem SkipSpace_of_not_space (r : Char) (rest : List Char) (h : isSpace r = false) :
    SkipSpace (r :: rest) = .ok (r :: rest) := by
  have h1 : r ≠ '\r' := by intro e; subst e; revert h; decide
  have h2 : r ≠ '\n' := by intro e; subst e; revert h; decide
  rw [SkipSpace, if_neg (fun hh => h1 hh.1), if_neg h2, if_pos (by simp [h])]

theorem SkipSpace_ok (s out : List Char) (h : SkipSpace s = .ok out) :
    out = s.dropWhile isSpace ∧ SkipSpace out = .ok out := by
  induction s with
  | nil =>
    simp only [SkipSpace] at h
    injection h with h
    subst h
    exact ⟨rfl, rfl⟩
  | cons r rest ih =>
    rw [SkipSpace] at h
    by_cases h1 : r = '\r' ∧ rest.head? = some '\n'
    · rw [if_pos h1] at h
      have hsp : isSpace r = true := by rw [h1.1]; decide
      rw [List.dropWhile_cons, if_pos hsp]
      exact ih h
    · rw [if_neg h1] at h
      by_cases h2 : r = '\n'
      · rw [if_pos h2] at h; exact Except.noConfusion h
      · rw [if_neg h2] at h
        by_cases h3 : isSpace r = true
        · rw [if_neg (by simp [h3])] at h
          rw [List.dropWhile_cons, if_pos h3]
          exact ih h
        · rw [if_pos h3] at h
          injection h with h
          subst h
          have h4 : isSpace r = false := by simpa using h3
          rw [List.dropWhile_cons, if_neg h3]
          exact ⟨rfl, SkipSpace_of_not_space r rest h4⟩

theorem takeWhile_decimalDigits (l : List Char) :
    l.takeWhile decimalDigits.contains = l.takeWhile isDigit := by
  congr 1
  funext c
  exact mem_decimalDigits c

/-- What `Sscanf` does once the leading white space is skipped: the token it
hands to `ParseInt` is the leading integer token of the field. -/
theorem Sscanf_of_SkipSpace (s input : List Char) :
    SkipSpace s = .ok input →
    Sscanf s =
      match input with
      | [] => .error .EOF
      | r :: rest =>
        match (if r = '+' ∨ r = '-' then rest else r :: rest) with
        | [] => .error .EOF
        | d :: _ =>
          if isDigit d = false then .error .expectedInteger
          else
            match ParseInt (leadingIntToken s) 64 with
            | .error e => .error (.parse e)
            | .ok i => .ok i := by
  intro h
  obtain ⟨hdrop, hidem⟩ := SkipSpace_ok s input h
  unfold Sscanf
  rw [h]
  simp only []
  unfold scanInt
  rw [hidem]
  unfold leadingIntToken
  rw [← hdrop]
  cases input with
  | nil => rfl
  | cons r rest =>
    simp only [mem_sign, decide_eq_true_eq]
    by_cases hs : r = '+' ∨ r = '-'
    · simp only [if_pos hs]
      cases rest with
      | nil => rfl
      | cons d in2 =>
        simp only [mem_decimalDigits]
        by_cases hd : isDigit d = true
        · simp only [hd, not_true_eq_false, if_false, Bool.true_eq_false]
          rw [takeWhile_decimalDigits, List.takeWhile_cons, if_pos hd]
          rfl
        · have hd2 : isDigit d = false := by simpa using hd
          simp only [hd2, Bool.false_eq_true, not_false_eq_true, if_true]
    · simp only [if_neg hs]
      simp only [mem_decimalDigits]
      by_cases hd : isDigit r = true
      · simp only [hd, not_true_eq_false, if_false, Bool.true_eq_false]
        rw [takeWhile_decimalDigits, List.takeWhile_cons, if_pos hd]
        rfl
      · have hd2 : isDigit r = false := by simpa using hd
        simp only [hd2, Bool.false_eq_true, not_false_eq_true, if_true]

/-- When `Sscanf` stores a count, the field starts (after white space) with a
base-10 integer, the count is its value and fits `int64`. -/
theorem Sscanf_ok_imp (s : List Char) (v : Int) (h : Sscanf s = .ok v) :
    isIntString (leadingIntToken s) = true ∧ intValue (leadingIntToken s) = v ∧ inInt64 v := by
  cases hsk : SkipSpace s with
  | error e =>
    unfold Sscanf at h
    rw [hsk] at h
    exact Except.noConfusion h
  | ok input =>
    rw [Sscanf_of_SkipSpace s input hsk] at h
    cases input with
    | nil => exact Except.noConfusion h
    | cons r rest =>
      simp only [] at h
      split at h
      · exact Except.noConfusion h
      · split at h
        · exact Except.noConfusion h
        · cases hp : ParseInt (leadingIntToken s) 64 with
          | error e => rw [hp] at h; exact Except.noConfusion h
          | ok i =>
            rw [hp] at h
            injection h with h
            subst h
            exact (ParseInt_ok_iff 64 (Or.inr rfl) _ _).1 hp

/-- The function `Sscanf` fails on every field that does not start, after
white space, with a base-10 integer whose value fits `int64`. -/
theorem Sscanf_error_of_not_int64 (s : List Char)
    (h : ¬ (isIntString (leadingIntToken s) = true ∧ inInt64 (intValue (leadingIntToken s)))) :
    ∃ e, Sscanf s = .error e := by
  cases hr : Sscanf s with
  | error e => exact ⟨e, rfl⟩
  | ok v =>
    obtain ⟨h1, h2, h3⟩ := Sscanf_ok_imp s v hr
    rw [← h2] at h3
    exact absurd ⟨h1, h3⟩ h

/-- A newline among the leading white space makes `SkipSpace` fail. -/
theorem SkipSpace_error_of_newline (s : List Char) (h : '\n' ∈ s.takeWhile isSpace) :
    ∃ e, SkipSpace s = .error e := by
  induction s with
  | nil => simp at h
  | cons r rest ih =>
    rw [List.takeWhile_cons] at h
    by_cases hsp : isSpace r = true
    · rw [if_pos hsp] at h
      rw [SkipSpace]
      by_cases hn : r = '\n'
      · have h1 : ¬ (r = '\r' ∧ rest.head? = some '\n') := by
          rintro ⟨e, -⟩
          rw [hn] at e
          revert e
          decide
        rw [if_neg h1, if_pos hn]
        exact ⟨_, rfl⟩
      · have hrest : '\n' ∈ rest.takeWhile isSpace := by
          rcases List.mem_cons.1 h with e | e
          · exact absurd e.symm hn
          · exact e
        by_cases h1 : r = '\r' ∧ rest.head? = some '\n'
        · rw [if_pos h1]
          exact ih hrest
        · rw [if_neg h1, if_neg hn, if_neg (by simp [hsp])]
          exact ih hrest
    · rw [if_neg hsp] at h
      simp at h

/-- A newline among the leading white space of the field makes `Sscanf` fail. -/
theorem Sscanf_error_of_newline (s : List Char) (h : '\n' ∈ s.takeWhile isSpace) :
    ∃ e, Sscanf s = .error e := by
  obtain ⟨e, he⟩ := SkipSpace_error_of_newline s h
  exact ⟨e, by unfold Sscanf; rw [he]⟩

theorem takeWhile_all (l : List Char) (h : l.all isDigit = true) : l.takeWhile isDigit = l := by
  induction l with
  | nil => rfl
  | cons c cs ih =>
    simp only [List.all_cons, Bool.and_eq_true] at h
    rw [List.takeWhile_cons, if_pos h.1, ih h.2]

theorem isIntString_head_not_space (c : Char) (cs : List Char)
    (h : isIntString (c :: cs) = true) : isSpace c = false := by
  rw [isIntString_cons] at h
  by_cases hs : c = '+' ∨ c = '-'
  · rcases hs with e | e <;> (subst e; decide)
  · rw [if_neg hs] at h
    simp only [List.all_cons, Bool.and_eq_true] at h
    exact isDigit_not_space c h.1

theorem leadingIntToken_of_intString (s : List Char) (h : isIntString s = true) :
    leadingIntToken s = s := by
  cases s with
  | nil => rfl
  | cons c cs =>
    have hsp := isIntString_head_not_space c cs h
    unfold leadingIntToken
    rw [List.dropWhile_cons, if_neg (by simp [hsp])]
    simp only []
    rw [isIntString_cons] at h
    by_cases hs : c = '+' ∨ c = '-'
    · rw [if_pos hs] at h ⊢
      simp only [Bool.and_eq_true] at h
      rw [takeWhile_all cs h.2]
    · rw [if_neg hs] at h ⊢
      exact takeWhile_all _ h

/-- On a base-10 integer string whose value fits `int64`, `Sscanf` stores that
value. -/
theorem Sscanf_of_intString (s : List Char) (h : isIntString s = true)
    (hr : inInt64 (intValue s)) : Sscanf s = .ok (intValue s) := by
  cases s with
  | nil => exact Bool.noConfusion h
  | cons c cs =>
    have hsp := isIntString_head_not_space c cs h
    have hsk := SkipSpace_of_not_space c cs hsp
    rw [Sscanf_of_SkipSpace _ _ hsk, leadingIntToken_of_intString _ h]
    have hp := (ParseInt_ok_iff 64 (Or.inr rfl) (c :: cs) (intValue (c :: cs))).2 ⟨h, rfl, hr⟩
    rw [hp]
    simp only []
    rw [isIntString_cons] at h
    by_cases hs : c = '+' ∨ c = '-'
    · rw [if_pos hs] at h ⊢
      simp only [Bool.and_eq_true] at h
      cases cs with
      | nil => simp at h
      | cons d ds =>
        simp only [List.all_cons, Bool.and_eq_true] at h
        simp [h.2.1]
    · rw [if_neg hs] at h ⊢
      simp only [List.all_cons, Bool.and_eq_true] at h
      simp [h.1]

/-! ## Lemmas on the loop -/

theorem parseLine_of_fields (line f0 f1 f2 f3 : List Char)
    (h : Split line ';' = [f0, f1, f2, f3]) : parseLine line = parseFields f0 f1 f2 f3 := by
  unfold parseLine
  rw [h]

theorem parseLine_skip (line : List Char) (h : (Split line ';').length ≠ 4) :
    parseLine line = .skip := by
  unfold parseLine
  split
  · rename_i f0 f1 f2 f3 heq
    rw [heq] at h
    exact absurd rfl h
  · rfl

theorem parseFields_of_parts (f0 f1 f2 f3 p0 p1 : List Char) (ps : List (List Char))
    (h : Split f2 '.' = p0 :: p1 :: ps) :
    parseFields f0 f1 f2 f3 =
      match Atoi p0 with
      | .error err => .priceError err
      | .ok units =>
        match Atoi p1 with
        | .error err => .priceError err
        | .ok nano =>
          match Sscanf f3 with
          | .error err => .countError err
          | .ok count =>
            .trade { FIGI := f0, Operation := operationOf f1,
                     Price := { Units := toInt64 units, Nano := toInt32 nano },
                     Count := count } := by
  unfold parseFields
  rw [h]
  simp only [List.getElem?_cons_zero, List.getElem?_cons_succ]

theorem parseFields_one_part (f0 f1 f2 f3 p0 : List Char) (h : Split f2 '.' = [p0]) :
    parseFields f0 f1 f2 f3 =
      match Atoi p0 with
      | .error err => .priceError err
      | .ok _ => .indexPanic := by
  unfold parseFields
  rw [h]
  simp only [List.getElem?_cons_zero]
  cases Atoi p0 <;> rfl

theorem isIntString_dot_not_mem (s : List Char) (h : isIntString s = true) : '.' ∉ s := by
  cases s with
  | nil => simp
  | cons c cs =>
    have hd : ∀ l : List Char, l.all isDigit = true → '.' ∉ l := by
      intro l hl hm
      have := (List.all_eq_true.1 hl) _ hm
      revert this
      decide
    rw [isIntString_cons] at h
    by_cases hs : c = '+' ∨ c = '-'
    · rw [if_pos hs] at h
      simp only [Bool.and_eq_true] at h
      intro hm
      rcases List.mem_cons.1 hm with e | e
      · rcases hs with e2 | e2 <;> (rw [e2] at e; revert e; decide)
      · exact hd cs h.2 e
    · rw [if_neg hs] at h
      exact hd _ h

/-- A built trade comes from four fields, a price of two parts at least, and three
conversions that succeeded. -/
theorem parseLine_trade_inv (line : List Char) (t : Trade) (h : parseLine line = .trade t) :
    ∃ f0 f1 f2 f3 p0 p1 ps units nano count,
      Split line ';' = [f0, f1, f2, f3] ∧ Split f2 '.' = p0 :: p1 :: ps ∧
      Atoi p0 = .ok units ∧ Atoi p1 = .ok nano ∧ Sscanf f3 = .ok count ∧
      t = { FIGI := f0, Operation := operationOf f1,
            Price := { Units := toInt64 units, Nano := toInt32 nano }, Count := count } := by
  unfold parseLine at h
  split at h
  · rename_i f0 f1 f2 f3 heq
    have hne := Split_ne_nil f2 '.'
    cases hp : Split f2 '.' with
    | nil => exact absurd hp hne
    | cons p0 ps =>
      cases ps with
      | nil =>
        rw [parseFields_one_part f0 f1 f2 f3 p0 hp] at h
        cases hA : Atoi p0 <;> rw [hA] at h <;> exact ParseOutcome.noConfusion h
      | cons p1 ps =>
        rw [parseFields_of_parts f0 f1 f2 f3 p0 p1 ps hp] at h
        cases hA : Atoi p0 with
        | error e => rw [hA] at h; exact ParseOutcome.noConfusion h
        | ok units =>
          cases hB : Atoi p1 with
          | error e => rw [hA, hB] at h; exact ParseOutcome.noConfusion h
          | ok nano =>
            cases hC : Sscanf f3 with
            | error e => rw [hA, hB, hC] at h; exact ParseOutcome.noConfusion h
            | ok count =>
              rw [hA, hB, hC] at h
              simp only [ParseOutcome.trade.injEq] at h
              exact ⟨f0, f1, f2, f3, p0, p1, ps, units, nano, count, heq, hp, hA, hB, hC, h.symm⟩
  · exact ParseOutcome.noConfusion h

theorem loopBody_trade {σ : Type} (svc : OrdersService σ) (accountId : String) (w : σ)
    (line : List Char) (t : Trade) (h : parseLine line = .trade t) :
    (loopBody svc accountId w line).panicked = false ∧
    placedOrders (loopBody svc accountId w line).events =
      [mkRequest accountId t (svc.CreateUid w).1] ∧
    (loopBody svc accountId w line).state =
      (svc.PostOrder (svc.CreateUid w).2 (mkRequest accountId t (svc.CreateUid w).1)).2 ∧
    parseErrorsLogged (loopBody svc accountId w line).events = 0 := by
  unfold loopBody
  rw [h]
  simp only []
  cases (svc.PostOrder (svc.CreateUid w).2 (mkRequest accountId t (svc.CreateUid w).1)).1 <;>
    simp [placedOrders, parseErrorsLogged]

theorem loopBody_indexPanic {σ : Type} (svc : OrdersService σ) (accountId : String) (w : σ)
    (line : List Char) (h : parseLine line = .indexPanic) :
    loopBody svc accountId w line = ⟨[], w, true⟩ := by
  unfold loopBody
  rw [h]

theorem mainLoop_cons_panicked {σ : Type} (svc : OrdersService σ) (accountId : String) (w : σ)
    (line : List Char) (rest : List (List Char))
    (h : (loopBody svc accountId w line).panicked = true) :
    mainLoop svc accountId w (line :: rest) = loopBody svc accountId w line := by
  rw [mainLoop]
  simp only [h, if_true]

theorem mainLoop_cons_continue {σ : Type} (svc : OrdersService σ) (accountId : String) (w : σ)
    (line : List Char) (rest : List (List Char))
    (h : (loopBody svc accountId w line).panicked = false) :
    mainLoop svc accountId w (line :: rest) =
      ⟨(loopBody svc accountId w line).events ++
          (mainLoop svc accountId (loopBody svc accountId w line).state rest).events,
        (mainLoop svc accountId (loopBody svc accountId w line).state rest).state,
        (mainLoop svc accountId (loopBody svc accountId w line).state rest).panicked⟩ := by
  rw [mainLoop]
  simp only [h, Bool.false_eq_true, if_false]

theorem operationOf_iff (f : List Char) :
    (operationOf f = .ORDER_DIRECTION_BUY ↔ f = "BUY".toList) ∧
    (operationOf f = .ORDER_DIRECTION_SELL ↔ f = "SELL".toList) ∧
    (operationOf f = .ORDER_DIRECTION_UNSPECIFIED ↔
      (f ≠ "BUY".toList ∧ f ≠ "SELL".toList)) := by
  have hne : "BUY".toList ≠ "SELL".toList := by decide
  unfold operationOf
  generalize "BUY".toList = buy at hne ⊢
  generalize "SELL".toList = sell at hne ⊢
  by_cases hb : f = buy
  · have hs : f ≠ sell := fun e => hne (hb.symm.trans e)
    rw [if_pos hb]
    exact ⟨⟨fun _ => hb, fun _ => rfl⟩,
      ⟨fun h => OrderDirection.noConfusion h, fun h => absurd h hs⟩,
      ⟨fun h => OrderDirection.noConfusion h, fun h => absurd hb h.1⟩⟩
  · rw [if_neg hb]
    by_cases hs : f = sell
    · rw [if_pos hs]
      exact ⟨⟨fun h => OrderDirection.noConfusion h, fun h => absurd h hb⟩,
        ⟨fun _ => hs, fun _ => rfl⟩,
        ⟨fun h => OrderDirection.noConfusion h, fun h => absurd hs h.2⟩⟩
    · rw [if_neg hs]
      exact ⟨⟨fun h => OrderDirection.noConfusion h, fun h => absurd h hb⟩,
        ⟨fun h => OrderDirection.noConfusion h, fun h => absurd h hs⟩,
        ⟨fun _ => ⟨hb, hs⟩, fun _ => rfl⟩⟩

theorem Split_length (s : List Char) (sep : Char) :
    (Split s sep).length = s.count sep + 1 := by
  induction s with
  | nil => rfl
  | cons c rest ih =>
    by_cases hc : c = sep
    · subst hc
      rw [Split_cons_eq, List.length_cons, ih, List.count_cons_self]
    · rw [Split_cons_ne c rest sep hc, List.count_cons_of_ne (fun e => hc e.symm)]
      cases hs : Split rest sep with
      | nil => exact absurd hs (Split_ne_nil rest sep)
      | cons x xs =>
        rw [hs] at ih
        simpa using ih

theorem Split_singleton (s p0 : List Char) (sep : Char) (h : Split s sep = [p0]) :
    sep ∉ s ∧ p0 = s := by
  have hl := Split_length s sep
  rw [h] at hl
  have hc : s.count sep = 0 := by simpa using hl.symm
  have hm : sep ∉ s := List.count_eq_zero.1 hc
  rw [Split_of_not_mem s sep hm] at h
  exact ⟨hm, by simpa using h.symm⟩

/-- The parsing step panics exactly on the lines of four fields whose price
field has no `.` and is accepted by `Atoi`. -/
theorem parseLine_indexPanic_iff (line : List Char) :
    parseLine line = .indexPanic ↔
      ∃ f0 f1 f2 f3 units, Split line ';' = [f0, f1, f2, f3] ∧ '.' ∉ f2 ∧
        Atoi f2 = .ok units := by
  constructor
  · intro h
    unfold parseLine at h
    split at h
    · rename_i f0 f1 f2 f3 heq
      cases hp : Split f2 '.' with
      | nil => exact absurd hp (Split_ne_nil f2 '.')
      | cons p0 ps =>
        cases ps with
        | nil =>
          obtain ⟨hm, he⟩ := Split_singleton f2 p0 '.' hp
          rw [parseFields_one_part f0 f1 f2 f3 p0 hp] at h
          subst he
          cases hA : Atoi p0 with
          | error e => rw [hA] at h; exact ParseOutcome.noConfusion h
          | ok units => exact ⟨f0, f1, p0, f3, units, heq, hm, hA⟩
        | cons p1 ps =>
          rw [parseFields_of_parts f0 f1 f2 f3 p0 p1 ps hp] at h
          cases hA : Atoi p0 with
          | error e => rw [hA] at h; exact ParseOutcome.noConfusion h
          | ok units =>
            cases hB : Atoi p1 with
            | error e => rw [hA, hB] at h; exact ParseOutcome.noConfusion h
            | ok nano =>
              cases hC : Sscanf f3 with
              | error e => rw [hA, hB, hC] at h; exact ParseOutcome.noConfusion h
              | ok count => rw [hA, hB, hC] at h; exact ParseOutcome.noConfusion h
    · exact ParseOutcome.noConfusion h
  · rintro ⟨f0, f1, f2, f3, units, hf, hm, hA⟩
    rw [parseLine_of_fields line f0 f1 f2 f3 hf,
      parseFields_one_part f0 f1 f2 f3 f2 (Split_of_not_mem f2 '.' hm), hA]

theorem placedOrders_append (a b : List Event) :
    placedOrders (a ++ b) = placedOrders a ++ placedOrders b := by
  induction a with
  | nil => rfl
  | cons e es ih =>
    cases e <;> simp [placedOrders, ih]

theorem loopBody_orders {σ : Type} (svc : OrdersService σ) (accountId : String) (w : σ)
    (line : List Char) :
    (placedOrders (loopBody svc accountId w line).events).map tradeOfRequest =
      (builtTrade line).toList := by
  unfold builtTrade
  cases hp : parseLine line with
  | trade t =>
    rw [(loopBody_trade svc accountId w line t hp).2.1]
    rfl
  | skip => unfold loopBody; rw [hp]; rfl
  | priceError e => unfold loopBody; rw [hp]; rfl
  | countError e => unfold loopBody; rw [hp]; rfl
  | indexPanic => unfold loopBody; rw [hp]; rfl

theorem loopBody_panicked_iff {σ : Type} (svc : OrdersService σ) (accountId : String) (w : σ)
    (line : List Char) :
    (loopBody svc accountId w line).panicked = true ↔ parseLine line = .indexPanic := by
  cases hp : parseLine line with
  | trade t => simp [(loopBody_trade svc accountId w line t hp).1]
  | skip => unfold loopBody; rw [hp]; simp
  | priceError e => unfold loopBody; rw [hp]; simp
  | countError e => unfold loopBody; rw [hp]; simp
  | indexPanic => unfold loopBody; rw [hp]; simp

/-- On a file none of whose lines makes the parsing step panic, whatever the
service answers, the orders placed are the trades of the lines that parse, in
file order, one order per such line. -/
theorem mainLoop_orders_without_panic {σ : Type} (svc : OrdersService σ)
    (accountId : String) (w : σ) (lines : List (List Char))
    (h : ∀ line ∈ lines, parseLine line ≠ .indexPanic) :
    (mainLoop svc accountId w lines).panicked = false ∧
    (placedOrders (mainLoop svc accountId w lines).events).map tradeOfRequest =
      lines.filterMap builtTrade := by
  induction lines generalizing w with
  | nil => exact ⟨rfl, rfl⟩
  | cons line rest ih =>
    have hnp : (loopBody svc accountId w line).panicked = false := by
      have := h line (List.mem_cons_self _ _)
      have h2 := (loopBody_panicked_iff svc accountId w line).not.2 this
      simpa using h2
    have ih2 := ih (loopBody svc accountId w line).state
      (fun l hl => h l (List.mem_cons_of_mem _ hl))
    rw [mainLoop_cons_continue svc accountId w line rest hnp]
    refine ⟨ih2.1, ?_⟩
    simp only [placedOrders_append, List.map_append, ih2.2, loopBody_orders]
    cases hb : builtTrade line with
    | none => simp [List.filterMap_cons, hb]
    | some t => simp [List.filterMap_cons, hb]

theorem isIntString_of_digits (l : List Char) (hne : l ≠ []) (h : l.all isDigit = true) :
    isIntString l = true ∧ intValue l = (natValue l : Int) := by
  cases l with
  | nil => exact absurd rfl hne
  | cons c cs =>
    have hc : isDigit c = true := by
      simp only [List.all_cons, Bool.and_eq_true] at h
      exact h.1
    obtain ⟨h1, h2⟩ := isDigit_not_sign c hc
    rw [isIntString_cons, intValue_cons, if_neg (by rintro (e | e) <;> contradiction),
      if_neg h2, if_neg h1]
    exact ⟨h, rfl⟩

theorem natValueFrom_zeros (k : Nat) (l : List Char) :
    natValueFrom (List.replicate k '0' ++ l) 0 = natValueFrom l 0 := by
  induction k with
  | zero => rfl
  | succ k ih =>
    rw [List.replicate_succ, List.cons_append, natValueFrom]
    exact ih

/-- Zeros put before a string of digits that `Atoi` accepts do not change what
`Atoi` returns. -/
theorem Atoi_zeros (k : Nat) (l : List Char) (v : Int) (hd : l.all isDigit = true)
    (h : Atoi l = .ok v) : Atoi (List.replicate k '0' ++ l) = .ok v := by
  obtain ⟨h1, h2, h3⟩ := (Atoi_ok_iff l v).1 h
  have hne : l ≠ [] := by
    intro e; rw [e] at h1; exact Bool.noConfusion h1
  have hne2 : List.replicate k '0' ++ l ≠ [] := by
    intro e
    exact hne (List.append_eq_nil.1 e).2
  have hd2 : (List.replicate k '0' ++ l).all isDigit = true := by
    rw [List.all_append, hd, Bool.and_true]
    rw [List.all_eq_true]
    intro c hc
    rw [(List.mem_replicate.1 hc).2]
    decide
  obtain ⟨g1, g2⟩ := isIntString_of_digits _ hne2 hd2
  obtain ⟨_, g3⟩ := isIntString_of_digits l hne hd
  refine (Atoi_ok_iff _ v).2 ⟨g1, ?_, h3⟩
  rw [g2, ← h2, g3]
  unfold natValue
  rw [natValueFrom_zeros]

/-! ## The claims -/

/-- C1, as stated, fails: in `X;BUY;1.4294967296;1` every number is a base-10
integer string, yet the trade built has `Price.Nano = 0`, not the integer value
4294967296 of the fraction part, because `int32(nano)` keeps the low 32 bits.
And a base-10 integer string whose value does not fit `int64` builds no trade:
`X;BUY;9223372036854775808.0;1` is skipped with a price error. -/
theorem C1_counterexample :
    Split "X;BUY;1.4294967296;1".toList ';' =
        ["X".toList, "BUY".toList, "1".toList ++ '.' :: "4294967296".toList, "1".toList] ∧
    isIntString "1".toList = true ∧ isIntString "4294967296".toList = true ∧
    intValue "4294967296".toList = 4294967296 ∧
    parseLine "X;BUY;1.4294967296;1".toList =
      .trade { FIGI := "X".toList, Operation := .ORDER_DIRECTION_BUY,
               Price := { Units := 1, Nano := 0 }, Count := 1 } ∧
    isIntString "9223372036854775808".toList = true ∧
    parseLine "X;BUY;9223372036854775808.0;1".toList = .priceError .ErrRange := by
  decide

/-- C1, amended: for every line that splits on `;` into exactly 4 fields, whose
price field is `<units>.<nanoFraction>` with both parts base-10 integer strings
and whose quantity field is a base-10 integer string, the three values fitting
`int64`, the parsing step builds the trade whose FIGI is the first field, whose
`Price.Units` is the value of the units part, whose `Price.Nano` is the value of
the fraction part narrowed to `int32` (the value itself when it fits `int32`)
and whose `Count` is the value of the quantity field. -/
theorem C1_wellformed_line_builds_trade (line f0 f1 u n q : List Char)
    (hfields : Split line ';' = [f0, f1, u ++ '.' :: n, q])
    (hu : isIntString u = true) (hn : isIntString n = true) (hq : isIntString q = true)
    (hur : inInt64 (intValue u)) (hnr : inInt64 (intValue n)) (hqr : inInt64 (intValue q)) :
    parseLine line =
      .trade { FIGI := f0, Operation := operationOf f1,
               Price := { Units := intValue u, Nano := toInt32 (intValue n) },
               Count := intValue q } ∧
    (inInt32 (intValue n) → toInt32 (intValue n) = intValue n) := by
  have hparts : Split (u ++ '.' :: n) '.' = u :: n :: [] := by
    rw [Split_append_sep u n '.' (isIntString_dot_not_mem u hu),
      Split_of_not_mem n '.' (isIntString_dot_not_mem n hn)]
  refine ⟨?_, toInt32_of_inInt32 _⟩
  rw [parseLine_of_fields line f0 f1 _ q hfields,
    parseFields_of_parts f0 f1 _ q u n [] hparts,
    (Atoi_ok_iff u (intValue u)).2 ⟨hu, rfl, hur⟩,
    (Atoi_ok_iff n (intValue n)).2 ⟨hn, rfl, hnr⟩,
    Sscanf_of_intString q hq hqr]
  simp only [toInt64_of_inInt64 _ hur]

/-- C1, the example of the specification: `BBG000B9XRY4;BUY;150.5;10` gives FIGI
`BBG000B9XRY4`, Buy, units 150, nano 5, count 10. -/
theorem C1_wellformed_line_builds_trade_witness :
    parseLine "BBG000B9XRY4;BUY;150.5;10".toList =
      .trade { FIGI := "BBG000B9XRY4".toList, Operation := operationOf "BUY".toList,
               Price := { Units := intValue "150".toList,
                          Nano := toInt32 (intValue "5".toList) },
               Count := intValue "10".toList } ∧
    (inInt32 (intValue "5".toList) → toInt32 (intValue "5".toList) = intValue "5".toList) :=
  C1_wellformed_line_builds_trade "BBG000B9XRY4;BUY;150.5;10".toList
    "BBG000B9XRY4".toList "BUY".toList "150".toList "5".toList "10".toList
    (by decide) (by decide) (by decide) (by decide)
    (by unfold inInt64; decide) (by unfold inInt64; decide) (by unfold inInt64; decide)

/-- C2, the input on which the code fails: on `X;BUY;150;10` the price field has
no `.`, `priceParts` has one element, `Atoi("150")` succeeds and `priceParts[1]`
is out of range: the parsing step panics, it neither builds a trade nor skips
the line, and the loop ends there. -/
theorem C2_no_dot_price_panics {σ : Type} (svc : OrdersService σ) (accountId : String)
    (w : σ) (rest : List (List Char)) :
    Split "150".toList '.' = ["150".toList] ∧
    parseLine "X;BUY;150;10".toList = .indexPanic ∧
    (mainLoop svc accountId w ("X;BUY;150;10".toList :: rest)).panicked = true ∧
    (mainLoop svc accountId w ("X;BUY;150;10".toList :: rest)).events = [] := by
  have h : parseLine "X;BUY;150;10".toList = .indexPanic := by decide
  have hb := loopBody_indexPanic svc accountId w _ h
  have hm := mainLoop_cons_panicked svc accountId w "X;BUY;150;10".toList rest (by rw [hb])
  refine ⟨by decide, h, ?_, ?_⟩
  · rw [hm, hb]
  · rw [hm, hb]

/-- C3: for every line whose split on `;` does not give exactly 4 fields, the
loop builds no trade, writes no log entry, places no order (the pass leaves no
event and the service untouched) and goes on to the next line: the run is the
run on the lines that follow. -/
theorem C3_wrong_field_count_skipped {σ : Type} (svc : OrdersService σ)
    (accountId : String) (w : σ) (line : List Char) (rest : List (List Char))
    (h : (Split line ';').length ≠ 4) :
    parseLine line = .skip ∧
    (loopBody svc accountId w line).events = [] ∧
    (loopBody svc accountId w line).state = w ∧
    (loopBody svc accountId w line).panicked = false ∧
    mainLoop svc accountId w (line :: rest) = mainLoop svc accountId w rest := by
  have hs := parseLine_skip line h
  have hb : loopBody svc accountId w line = ⟨[], w, false⟩ := by
    unfold loopBody
    rw [hs]
  refine ⟨hs, by rw [hb], by rw [hb], by rw [hb], ?_⟩
  rw [mainLoop, hb]
  simp

/-- C3 on the empty line, which splits into one (empty) field. -/
theorem C3_wrong_field_count_skipped_witness :
    parseLine [] = .skip ∧
    (loopBody rejectingService "acc" 0 []).events = [] ∧
    (loopBody rejectingService "acc" 0 []).state = 0 ∧
    (loopBody rejectingService "acc" 0 []).panicked = false ∧
    mainLoop rejectingService "acc" 0 ([] :: ["X;BUY;1.0;1".toList]) =
      mainLoop rejectingService "acc" 0 ["X;BUY;1.0;1".toList] :=
  C3_wrong_field_count_skipped rejectingService "acc" 0 [] ["X;BUY;1.0;1".toList] (by decide)

/-- C4, as stated, fails: in `X;BUY;1.0;10abc` the quantity field `10abc` is not
a base-10 integer string, yet `Sscanf` reads its leading `10` and leaves `abc`:
a trade with count 10 is built, an order is placed and nothing is logged. -/
theorem C4_counterexample :
    Split "X;BUY;1.0;10abc".toList ';' =
        ["X".toList, "BUY".toList, "1.0".toList, "10abc".toList] ∧
    isIntString "10abc".toList = false ∧
    parseLine "X;BUY;1.0;10abc".toList =
      .trade { FIGI := "X".toList, Operation := .ORDER_DIRECTION_BUY,
               Price := { Units := 1, Nano := 0 }, Count := 10 } ∧
    parseErrorsLogged (loopBody rejectingService "acc" 0 "X;BUY;1.0;10abc".toList).events = 0 ∧
    (placedOrders (loopBody rejectingService "acc" 0 "X;BUY;1.0;10abc".toList).events).length
      = 1 := by
  have h : parseLine "X;BUY;1.0;10abc".toList =
      .trade { FIGI := "X".toList, Operation := .ORDER_DIRECTION_BUY,
               Price := { Units := 1, Nano := 0 }, Count := 10 } := by decide
  have hb := loopBody_trade rejectingService "acc" 0 _ _ h
  refine ⟨by decide, by decide, h, hb.2.2.2, ?_⟩
  rw [hb.2.1]
  rfl

/-- C4, amended: for every line with exactly 4 fields in which the text of the
price field before its first `.` is not a base-10 integer string that fits
`int64`, or the price field has a `.` and either the text between its first and
second `.` (to the end when there is no second) is not a base-10 integer string
that fits `int64`, or the quantity field does not start, after white space
without a newline, with a base-10 integer that fits `int64`, the loop builds no
trade, places no order and logs exactly one parse error, which is all the pass
writes. -/
theorem C4_bad_number_logged_once {σ : Type} (svc : OrdersService σ) (accountId : String)
    (w : σ) (line f0 f1 f2 f3 p0 : List Char) (ps : List (List Char))
    (hfields : Split line ';' = [f0, f1, f2, f3]) (hparts : Split f2 '.' = p0 :: ps)
    (hbad : ¬ (isIntString p0 = true ∧ inInt64 (intValue p0)) ∨
      ∃ p1 ps1, ps = p1 :: ps1 ∧
        (¬ (isIntString p1 = true ∧ inInt64 (intValue p1)) ∨
         '\n' ∈ f3.takeWhile isSpace ∨
         ¬ (isIntString (leadingIntToken f3) = true ∧
            inInt64 (intValue (leadingIntToken f3))))) :
    (∀ t, parseLine line ≠ .trade t) ∧
    placedOrders (loopBody svc accountId w line).events = [] ∧
    parseErrorsLogged (loopBody svc accountId w line).events = 1 ∧
    (loopBody svc accountId w line).events.length = 1 ∧
    (loopBody svc accountId w line).state = w ∧
    (loopBody svc accountId w line).panicked = false := by
  have key : (∃ e, parseLine line = .priceError e) ∨ (∃ e, parseLine line = .countError e) := by
    rw [parseLine_of_fields line f0 f1 f2 f3 hfields]
    rcases hbad with h0 | ⟨p1, ps1, hps, h1⟩
    · obtain ⟨e, he⟩ := Atoi_error_of_not_int64 p0 h0
      left
      refine ⟨e, ?_⟩
      cases ps with
      | nil => rw [parseFields_one_part f0 f1 f2 f3 p0 hparts, he]
      | cons p1 ps1 => rw [parseFields_of_parts f0 f1 f2 f3 p0 p1 ps1 hparts, he]
    · subst hps
      rw [parseFields_of_parts f0 f1 f2 f3 p0 p1 ps1 hparts]
      cases hA : Atoi p0 with
      | error e => exact Or.inl ⟨e, rfl⟩
      | ok units =>
        cases hB : Atoi p1 with
        | error e => exact Or.inl ⟨e, rfl⟩
        | ok nano =>
          have hcount : ∃ e, Sscanf f3 = .error e := by
            rcases h1 with h1 | h1 | h1
            · obtain ⟨e, he⟩ := Atoi_error_of_not_int64 p1 h1
              rw [he] at hB
              exact Except.noConfusion hB
            · exact Sscanf_error_of_newline f3 h1
            · exact Sscanf_error_of_not_int64 f3 h1
          obtain ⟨e, he⟩ := hcount
          right
          exact ⟨e, by rw [he]⟩
  rcases key with ⟨e, he⟩ | ⟨e, he⟩
  · refine ⟨fun t ht => by rw [he] at ht; exact ParseOutcome.noConfusion ht, ?_⟩
    unfold loopBody
    rw [he]
    simp [placedOrders, parseErrorsLogged]
  · refine ⟨fun t ht => by rw [he] at ht; exact ParseOutcome.noConfusion ht, ?_⟩
    unfold loopBody
    rw [he]
    simp [placedOrders, parseErrorsLogged]

/-- C4 on the example `X;BUY;1.0;abc` of the specification. -/
theorem C4_bad_number_logged_once_witness :
    (∀ t, parseLine "X;BUY;1.0;abc".toList ≠ .trade t) ∧
    placedOrders (loopBody rejectingService "acc" 0 "X;BUY;1.0;abc".toList).events = [] ∧
    parseErrorsLogged (loopBody rejectingService "acc" 0 "X;BUY;1.0;abc".toList).events = 1 ∧
    (loopBody rejectingService "acc" 0 "X;BUY;1.0;abc".toList).events.length = 1 ∧
    (loopBody rejectingService "acc" 0 "X;BUY;1.0;abc".toList).state = 0 ∧
    (loopBody rejectingService "acc" 0 "X;BUY;1.0;abc".toList).panicked = false :=
  C4_bad_number_logged_once rejectingService "acc" 0 "X;BUY;1.0;abc".toList
    "X".toList "BUY".toList "1.0".toList "abc".toList "1".toList ["0".toList]
    (by decide) (by decide)
    (Or.inr ⟨"0".toList, [], rfl, Or.inr (Or.inr (fun h => absurd h.1 (by decide)))⟩)

/-- Further lines on which one parse error is logged and no trade is built: the
example `X;BUY;abc.0;1` of the specification, a quantity whose leading integer
does not fit `int64` and is followed by other text, and a fraction part that
does not fit `int64`. -/
theorem bad_number_examples :
    parseLine "X;BUY;abc.0;1".toList = .priceError .ErrSyntax ∧
    parseLine "X;BUY;1.0;abc".toList = .countError .expectedInteger ∧
    parseLine "X;BUY;1.0;99999999999999999999x".toList = .countError (.parse .ErrRange) ∧
    parseLine "X;BUY;1.99999999999999999999.3;1".toList = .priceError .ErrRange := by
  decide

/-- C5: for every line with exactly 4 fields whose price and quantity fields are
valid (the two price parts and the quantity convert), the trade built has
direction Buy iff the second field is exactly `BUY`, Sell iff it is exactly
`SELL`, Unspecified iff it is anything else; whatever the second field is, the
line is not skipped: the trade is built and is submitted, with that
direction, in the one order the pass places. -/
theorem C5_direction_of_second_field {σ : Type} (svc : OrdersService σ)
    (accountId : String) (w : σ) (line f0 f1 f2 f3 p0 p1 : List Char)
    (ps : List (List Char)) (units nano count : Int)
    (hfields : Split line ';' = [f0, f1, f2, f3]) (hparts : Split f2 '.' = p0 :: p1 :: ps)
    (hunits : Atoi p0 = .ok units) (hnano : Atoi p1 = .ok nano)
    (hcount : Sscanf f3 = .ok count) :
    ∃ t, parseLine line = .trade t ∧
      (t.Operation = .ORDER_DIRECTION_BUY ↔ f1 = "BUY".toList) ∧
      (t.Operation = .ORDER_DIRECTION_SELL ↔ f1 = "SELL".toList) ∧
      (t.Operation = .ORDER_DIRECTION_UNSPECIFIED ↔
        (f1 ≠ "BUY".toList ∧ f1 ≠ "SELL".toList)) ∧
      (∃ req, placedOrders (loopBody svc accountId w line).events = [req] ∧
        req.Direction = t.Operation ∧ tradeOfRequest req = t) := by
  have hp : parseLine line =
      .trade { FIGI := f0, Operation := operationOf f1,
               Price := { Units := toInt64 units, Nano := toInt32 nano },
               Count := count } := by
    rw [parseLine_of_fields line f0 f1 f2 f3 hfields,
      parseFields_of_parts f0 f1 f2 f3 p0 p1 ps hparts, hunits, hnano, hcount]
  refine ⟨_, hp, (operationOf_iff f1).1, (operationOf_iff f1).2.1, (operationOf_iff f1).2.2, ?_⟩
  · have hb := loopBody_trade svc accountId w line _ hp
    exact ⟨_, hb.2.1, rfl, rfl⟩

/-- C5 on the example `X;HOLD;1.0;1` of the specification. -/
theorem C5_direction_of_second_field_witness :
    ∃ t, parseLine "X;HOLD;1.0;1".toList = .trade t ∧
      (t.Operation = .ORDER_DIRECTION_BUY ↔ "HOLD".toList = "BUY".toList) ∧
      (t.Operation = .ORDER_DIRECTION_SELL ↔ "HOLD".toList = "SELL".toList) ∧
      (t.Operation = .ORDER_DIRECTION_UNSPECIFIED ↔
        ("HOLD".toList ≠ "BUY".toList ∧ "HOLD".toList ≠ "SELL".toList)) ∧
      (∃ req, placedOrders (loopBody rejectingService "acc" 0 "X;HOLD;1.0;1".toList).events
          = [req] ∧
        req.Direction = t.Operation ∧ tradeOfRequest req = t) :=
  C5_direction_of_second_field rejectingService "acc" 0 "X;HOLD;1.0;1".toList
    "X".toList "HOLD".toList "1.0".toList "1".toList "1".toList "0".toList [] 1 0 1
    (by decide) (by decide) (by decide) (by decide) (by decide)

/-- C6, as stated, fails: the line `;BUY;1.-5;0x` builds a trade whose FIGI is
empty, whose `Price.Nano` is -5, outside [0, 999999999], and whose `Count` is 0,
not strictly positive, read from the quantity field `0x` with `x` left over. -/
theorem C6_counterexample :
    parseLine ";BUY;1.-5;0x".toList =
      .trade { FIGI := [], Operation := .ORDER_DIRECTION_BUY,
               Price := { Units := 1, Nano := -5 }, Count := 0 } ∧
    Split ";BUY;1.-5;0x".toList ';' = [[], "BUY".toList, "1.-5".toList, "0x".toList] ∧
    leadingIntToken "0x".toList = "0".toList := by
  decide

/-- C6, amended: every trade the parsing step builds has the first field of the
line as its FIGI (empty when that field is empty), a `Price.Units` in the range
of `int64`, a `Price.Nano` in the range of `int32`, and a `Count` in the range
of `int64` that is the value of the base-10 integer the quantity field starts
with, after white space; what follows that integer in the field is left over. -/
theorem C6_built_trade_invariant (line : List Char) (t : Trade)
    (h : parseLine line = .trade t) :
    ∃ f0 f1 f2 f3, Split line ';' = [f0, f1, f2, f3] ∧ t.FIGI = f0 ∧
      inInt64 t.Price.Units ∧ inInt32 t.Price.Nano ∧ inInt64 t.Count ∧
      isIntString (leadingIntToken f3) = true ∧ t.Count = intValue (leadingIntToken f3) := by
  obtain ⟨f0, f1, f2, f3, p0, p1, ps, units, nano, count, hf, -, hA, -, hC, ht⟩ :=
    parseLine_trade_inv line t h
  obtain ⟨c1, c2, c3⟩ := Sscanf_ok_imp f3 count hC
  have hu := Atoi_inInt64 p0 units hA
  subst ht
  refine ⟨f0, f1, f2, f3, hf, rfl, ?_, toInt32_inInt32 nano, c3, c1, c2.symm⟩
  show inInt64 (toInt64 units)
  rw [toInt64_of_inInt64 units hu]
  exact hu

/-- C6 on the line `BBG000B9XRY4;BUY;150.5;10`. -/
theorem C6_built_trade_invariant_witness :
    ∃ f0 f1 f2 f3, Split "BBG000B9XRY4;BUY;150.5;10".toList ';' = [f0, f1, f2, f3] ∧
      (Trade.mk "BBG000B9XRY4".toList .ORDER_DIRECTION_BUY ⟨150, 5⟩ 10).FIGI = f0 ∧
      inInt64 (Trade.mk "BBG000B9XRY4".toList .ORDER_DIRECTION_BUY ⟨150, 5⟩ 10).Price.Units ∧
      inInt32 (Trade.mk "BBG000B9XRY4".toList .ORDER_DIRECTION_BUY ⟨150, 5⟩ 10).Price.Nano ∧
      inInt64 (Trade.mk "BBG000B9XRY4".toList .ORDER_DIRECTION_BUY ⟨150, 5⟩ 10).Count ∧
      isIntString (leadingIntToken f3) = true ∧
      (Trade.mk "BBG000B9XRY4".toList .ORDER_DIRECTION_BUY ⟨150, 5⟩ 10).Count =
        intValue (leadingIntToken f3) :=
  C6_built_trade_invariant "BBG000B9XRY4;BUY;150.5;10".toList
    (Trade.mk "BBG000B9XRY4".toList .ORDER_DIRECTION_BUY ⟨150, 5⟩ 10) (by decide)

/-- C7, the input on which the code fails: in the file of the two lines
`X;BUY;1;1` and `X;BUY;1.0;1` the second line parses to a trade, but the first
makes the parsing step panic (its price has no `.`), so whatever the service
does no order is placed at all: the orders placed are not the trades of the
lines that parse. -/
theorem C7_panic_stops_later_orders {σ : Type} (svc : OrdersService σ)
    (accountId : String) (w : σ) :
    builtTrade "X;BUY;1.0;1".toList =
      some { FIGI := "X".toList, Operation := .ORDER_DIRECTION_BUY,
             Price := { Units := 1, Nano := 0 }, Count := 1 } ∧
    parseLine "X;BUY;1;1".toList = .indexPanic ∧
    placedOrders
      (mainLoop svc accountId w ["X;BUY;1;1".toList, "X;BUY;1.0;1".toList]).events = [] ∧
    (mainLoop svc accountId w ["X;BUY;1;1".toList, "X;BUY;1.0;1".toList]).panicked = true := by
  have h : parseLine "X;BUY;1;1".toList = .indexPanic := by decide
  have hb := loopBody_indexPanic svc accountId w _ h
  have hm := mainLoop_cons_panicked svc accountId w "X;BUY;1;1".toList
    ["X;BUY;1.0;1".toList] (by rw [hb])
  refine ⟨by decide, h, ?_, ?_⟩
  · rw [hm, hb]; rfl
  · rw [hm, hb]

/-- C8: for every trade that reaches submission, the pass hands `PostOrder`
exactly one request, whatever the service answers, and that request carries
`InstrumentId = Trade.FIGI`, `Quantity = Trade.Count`, `Price = Trade.Price`,
`Direction = Trade.Operation`, the configured account id, the order type
Limit and the order id `CreateUid` gave; the service is left in the state that
one call of `PostOrder` produces, so there is no second call on an error. -/
theorem C8_one_limit_request_per_trade {σ : Type} (svc : OrdersService σ)
    (accountId : String) (w : σ) (line : List Char) (t : Trade)
    (h : parseLine line = .trade t) :
    ∃ req, placedOrders (loopBody svc accountId w line).events = [req] ∧
      req.InstrumentId = t.FIGI ∧ req.Quantity = t.Count ∧ req.Price = t.Price ∧
      req.Direction = t.Operation ∧ req.AccountId = accountId ∧
      req.OrderType = .ORDER_TYPE_LIMIT ∧ req.OrderId = (svc.CreateUid w).1 ∧
      (loopBody svc accountId w line).state = (svc.PostOrder (svc.CreateUid w).2 req).2 ∧
      (loopBody svc accountId w line).panicked = false := by
  have hb := loopBody_trade svc accountId w line t h
  exact ⟨_, hb.2.1, rfl, rfl, rfl, rfl, rfl, rfl, rfl, hb.2.2.1, hb.1⟩

/-- C8 on the line `BBG000B9XRY4;BUY;150.5;10`, with a service that rejects
every request. -/
theorem C8_one_limit_request_per_trade_witness :
    ∃ req, placedOrders
        (loopBody rejectingService "acc" 0 "BBG000B9XRY4;BUY;150.5;10".toList).events = [req] ∧
      req.InstrumentId = (Trade.mk "BBG000B9XRY4".toList .ORDER_DIRECTION_BUY ⟨150, 5⟩ 10).FIGI ∧
      req.Quantity = (Trade.mk "BBG000B9XRY4".toList .ORDER_DIRECTION_BUY ⟨150, 5⟩ 10).Count ∧
      req.Price = (Trade.mk "BBG000B9XRY4".toList .ORDER_DIRECTION_BUY ⟨150, 5⟩ 10).Price ∧
      req.Direction =
        (Trade.mk "BBG000B9XRY4".toList .ORDER_DIRECTION_BUY ⟨150, 5⟩ 10).Operation ∧
      req.AccountId = "acc" ∧
      req.OrderType = .ORDER_TYPE_LIMIT ∧ req.OrderId = (rejectingService.CreateUid 0).1 ∧
      (loopBody rejectingService "acc" 0 "BBG000B9XRY4;BUY;150.5;10".toList).state =
        (rejectingService.PostOrder (rejectingService.CreateUid 0).2 req).2 ∧
      (loopBody rejectingService "acc" 0 "BBG000B9XRY4;BUY;150.5;10".toList).panicked = false :=
  C8_one_limit_request_per_trade rejectingService "acc" 0
    "BBG000B9XRY4;BUY;150.5;10".toList
    (Trade.mk "BBG000B9XRY4".toList .ORDER_DIRECTION_BUY ⟨150, 5⟩ 10) (by decide)

/-- C9, as stated, fails: the price field `1.2.3` is split on every `.`, into
three substrings, and only the first two are read: `X;BUY;1.2.3;1` builds the
trade with units 1 and nano 2, and no price error is logged. -/
theorem C9_counterexample :
    Split "1.2.3".toList '.' = ["1".toList, "2".toList, "3".toList] ∧
    parseLine "X;BUY;1.2.3;1".toList =
      .trade { FIGI := "X".toList, Operation := .ORDER_DIRECTION_BUY,
               Price := { Units := 1, Nano := 2 }, Count := 1 } ∧
    isIntString "2.3".toList = false := by
  decide

/-- C9, amended: the parser splits the price field on every `.` and reads only
the first two substrings, the text before the first `.` and the text between
the first and the second; both must parse as base-10 integers, and what comes
from the second `.` on is ignored: a 4-field line whose price field has two
`.` or more ends as the same line with the price field cut before its second
`.` does, and when a trade is built its units and nano are the values of those
two substrings (nano narrowed to `int32`). -/
theorem C9_price_split_on_every_dot (line line2 f0 f1 u n more f3 : List Char)
    (hu : '.' ∉ u) (hn : '.' ∉ n)
    (hfields : Split line ';' = [f0, f1, u ++ '.' :: (n ++ '.' :: more), f3])
    (hfields2 : Split line2 ';' = [f0, f1, u ++ '.' :: n, f3]) :
    Split (u ++ '.' :: (n ++ '.' :: more)) '.' = u :: n :: Split more '.' ∧
    parseLine line = parseLine line2 ∧
    (∀ t, parseLine line = .trade t →
      isIntString u = true ∧ isIntString n = true ∧
      t.Price.Units = intValue u ∧ t.Price.Nano = toInt32 (intValue n)) := by
  have hs1 : Split (u ++ '.' :: (n ++ '.' :: more)) '.' = u :: n :: Split more '.' := by
    rw [Split_append_sep u _ '.' hu, Split_append_sep n _ '.' hn]
  have hs2 : Split (u ++ '.' :: n) '.' = u :: n :: [] := by
    rw [Split_append_sep u _ '.' hu, Split_of_not_mem n '.' hn]
  have e1 := parseFields_of_parts f0 f1 _ f3 u n _ hs1
  have e2 := parseFields_of_parts f0 f1 _ f3 u n _ hs2
  refine ⟨hs1, ?_, ?_⟩
  · rw [parseLine_of_fields line f0 f1 _ f3 hfields,
      parseLine_of_fields line2 f0 f1 _ f3 hfields2, e1, e2]
  · intro t ht
    rw [parseLine_of_fields line f0 f1 _ f3 hfields, e1] at ht
    cases hA : Atoi u with
    | error e => rw [hA] at ht; exact ParseOutcome.noConfusion ht
    | ok units =>
      cases hB : Atoi n with
      | error e => rw [hA, hB] at ht; exact ParseOutcome.noConfusion ht
      | ok nano =>
        cases hC : Sscanf f3 with
        | error e => rw [hA, hB, hC] at ht; exact ParseOutcome.noConfusion ht
        | ok count =>
          rw [hA, hB, hC] at ht
          simp only [ParseOutcome.trade.injEq] at ht
          obtain ⟨a1, a2, a3⟩ := (Atoi_ok_iff u units).1 hA
          obtain ⟨b1, b2, -⟩ := (Atoi_ok_iff n nano).1 hB
          subst ht
          refine ⟨a1, b1, ?_, ?_⟩
          · show toInt64 units = intValue u
            rw [toInt64_of_inInt64 units a3, a2]
          · show toInt32 nano = toInt32 (intValue n)
            rw [b2]

/-- C9 on the line `X;BUY;1.2.3;1`, which ends as `X;BUY;1.2;1` does. -/
theorem C9_price_split_on_every_dot_witness :
    Split ("1".toList ++ '.' :: ("2".toList ++ '.' :: "3".toList)) '.' =
      "1".toList :: "2".toList :: Split "3".toList '.' ∧
    parseLine "X;BUY;1.2.3;1".toList = parseLine "X;BUY;1.2;1".toList ∧
    (∀ t, parseLine "X;BUY;1.2.3;1".toList = .trade t →
      isIntString "1".toList = true ∧ isIntString "2".toList = true ∧
      t.Price.Units = intValue "1".toList ∧ t.Price.Nano = toInt32 (intValue "2".toList)) :=
  C9_price_split_on_every_dot "X;BUY;1.2.3;1".toList "X;BUY;1.2;1".toList
    "X".toList "BUY".toList "1".toList "2".toList "3".toList "1".toList
    (by decide) (by decide) (by decide) (by decide)

/-- C10, as stated, fails: the line `X;BUY;1.-5;1` is accepted, with nano -5,
but with one `0` put before its fraction string `-5` the line `X;BUY;1.0-5;1`
is rejected with a price error: the built trade is not left unchanged. -/
theorem C10_counterexample :
    parseLine "X;BUY;1.-5;1".toList =
      .trade { FIGI := "X".toList, Operation := .ORDER_DIRECTION_BUY,
               Price := { Units := 1, Nano := -5 }, Count := 1 } ∧
    parseLine "X;BUY;1.0-5;1".toList = .priceError .ErrSyntax := by
  decide

/-- C10, amended: the fraction part of the price is read as a plain integer:
for every accepted 4-field line `Price.Nano` is the integer value of the
fraction string narrowed to `int32`, so when the fraction string is made of
digits only (no sign), putting any number of `0` characters before it leaves
the built trade unchanged. -/
theorem C10_fraction_is_plain_integer (line f0 f1 f2 f3 p0 p1 : List Char)
    (ps : List (List Char)) (t : Trade)
    (hfields : Split line ';' = [f0, f1, f2, f3]) (hparts : Split f2 '.' = p0 :: p1 :: ps)
    (h : parseLine line = .trade t) :
    isIntString p1 = true ∧ t.Price.Nano = toInt32 (intValue p1) ∧
    (p1.all isDigit = true → ∀ (k : Nat) (line2 g2 : List Char),
      Split line2 ';' = [f0, f1, g2, f3] →
      Split g2 '.' = p0 :: (List.replicate k '0' ++ p1) :: ps →
      parseLine line2 = .trade t) := by
  rw [parseLine_of_fields line f0 f1 f2 f3 hfields,
    parseFields_of_parts f0 f1 f2 f3 p0 p1 ps hparts] at h
  cases hA : Atoi p0 with
  | error e => rw [hA] at h; exact ParseOutcome.noConfusion h
  | ok units =>
    cases hB : Atoi p1 with
    | error e => rw [hA, hB] at h; exact ParseOutcome.noConfusion h
    | ok nano =>
      cases hC : Sscanf f3 with
      | error e => rw [hA, hB, hC] at h; exact ParseOutcome.noConfusion h
      | ok count =>
        rw [hA, hB, hC] at h
        simp only [ParseOutcome.trade.injEq] at h
        obtain ⟨b1, b2, -⟩ := (Atoi_ok_iff p1 nano).1 hB
        refine ⟨b1, ?_, ?_⟩
        · rw [← h, b2]
        · intro hd k line2 g2 hf2 hp2
          rw [parseLine_of_fields line2 f0 f1 g2 f3 hf2,
            parseFields_of_parts f0 f1 g2 f3 p0 _ ps hp2, hA,
            Atoi_zeros k p1 nano hd hB, hC]
          simp only [ParseOutcome.trade.injEq]
          exact h

/-- C10 on the line `X;BUY;1.5;1`: its nano is 5, and the lines with the price
fields `1.05`, `1.005` and so on build the same trade. -/
theorem C10_fraction_is_plain_integer_witness :
    isIntString "5".toList = true ∧
    (Trade.mk "X".toList .ORDER_DIRECTION_BUY ⟨1, 5⟩ 1).Price.Nano =
      toInt32 (intValue "5".toList) ∧
    ("5".toList.all isDigit = true → ∀ (k : Nat) (line2 g2 : List Char),
      Split line2 ';' = ["X".toList, "BUY".toList, g2, "1".toList] →
      Split g2 '.' = "1".toList :: (List.replicate k '0' ++ "5".toList) :: [] →
      parseLine line2 = .trade (Trade.mk "X".toList .ORDER_DIRECTION_BUY ⟨1, 5⟩ 1)) :=
  C10_fraction_is_plain_integer "X;BUY;1.5;1".toList "X".toList "BUY".toList
    "1.5".toList "1".toList "1".toList "5".toList []
    (Trade.mk "X".toList .ORDER_DIRECTION_BUY ⟨1, 5⟩ 1)
    (by decide) (by decide) (by decide)

/-- The examples of C10: the price fields `1.5`, `1.05` and `1.000000005` all
give units 1 and nano 5, and `1.500000000` gives nano 500000000. -/
theorem fraction_examples :
    parseLine "X;BUY;1.5;1".toList =
      .trade (Trade.mk "X".toList .ORDER_DIRECTION_BUY ⟨1, 5⟩ 1) ∧
    parseLine "X;BUY;1.05;1".toList =
      .trade (Trade.mk "X".toList .ORDER_DIRECTION_BUY ⟨1, 5⟩ 1) ∧
    parseLine "X;BUY;1.000000005;1".toList =
      .trade (Trade.mk "X".toList .ORDER_DIRECTION_BUY ⟨1, 5⟩ 1) ∧
    parseLine "X;BUY;1.500000000;1".toList =
      .trade (Trade.mk "X".toList .ORDER_DIRECTION_BUY ⟨1, 500000000⟩ 1) := by
  decide

end TinkoffOrders
